import Mathlib

/-!
# Pathological (duplicated) event detection

A shallow embedding of `pkg/monitortestlibrary/pathologicaleventlibrary/duplicated_events.go`
together with theorems about it.

Conventions of the embedding:

* a Go `map[string]V` is an association list `List (String × V)` in which the first binding of
  a key is the live one; indexing a missing key of a `map[string]string` gives `""`;
* `time.Time` is an instant (nanoseconds relative to the Go zero time, which is the value a
  declared but unassigned `time.Time` holds) together with the zone offset used for printing;
  `Before` and `After` compare instants strictly;
* logging calls have no effect on the results and are left out;
* constants, sets and functions that the file imports from other packages
  (`monitorapi`, `platformidentification`, `MatchesAny`, `DuplicateEventThreshold`) are
  fields of the parameter record `Env`.
-/

namespace pathologicaleventlibrary

/-! ## Go maps -/

/-- Lookup `v, ok := m[k]` of a Go map: `none` when the key is absent. -/
def mapGet? {V : Type} : List (String × V) → String → Option V
  | [], _ => none
  | (k', v) :: rest, k => if k' = k then some v else mapGet? rest k

/-- Indexing `m[k]` of a `map[string]string`: the zero value `""` when the key is absent. -/
def mapIndex (m : List (String × String)) (k : String) : String :=
  (mapGet? m k).getD ""

/-- Assignment `m[k] = v` of a Go map. -/
def mapSet {V : Type} : List (String × V) → String → V → List (String × V)
  | [], k, v => [(k, v)]
  | (k', v') :: rest, k, v =>
    if k' = k then (k, v) :: rest else (k', v') :: mapSet rest k v

/-- The keys of a Go map. -/
def mapKeys {V : Type} (m : List (String × V)) : List String :=
  m.map Prod.fst

/-! ## Strings -/

/-- Test `strings.Contains(s, substr)` on character lists. -/
def containsChars : List Char → List Char → Bool
  | [], sub => sub.isEmpty
  | c :: cs, sub => sub.isPrefixOf (c :: cs) || containsChars cs sub

/-- Go `strings.Contains`. -/
def stringsContains (s substr : String) : Bool :=
  containsChars s.data substr.data

/-- Go `strings.Split(s, "\n")` on character lists: never empty. -/
def splitLines : List Char → List (List Char)
  | [] => [[]]
  | c :: cs =>
    if c = '\n' then [] :: splitLines cs
    else
      match splitLines cs with
      | [] => [[c]]
      | l :: ls => (c :: l) :: ls

/-- Go `strings.Join(parts, "\n")` on character lists. -/
def joinLines : List (List Char) → List Char
  | [] => []
  | [l] => l
  | l :: l' :: ls => l ++ '\n' :: joinLines (l' :: ls)

/-- Go `strings.Join(elems, "\n")`. -/
def stringsJoinNL (elems : List String) : String :=
  ⟨joinLines (elems.map String.data)⟩

/-- Format verb `%d` of `fmt.Sprintf` for an `int`. -/
def sprintfD (n : Int) : String :=
  match n with
  | Int.ofNat m => Nat.repr m
  | Int.negSucc m => "-" ++ Nat.repr (m + 1)

/-! ## Time -/

/-- Go `time.Time`: an instant and the zone offset (seconds east of UTC) it is shown in. -/
structure Time where
  /-- Nanoseconds elapsed since the Go zero time (January 1, year 1, 00:00:00 UTC). -/
  nsec : Int
  /-- Zone offset in seconds east of UTC. -/
  offset : Int
deriving DecidableEq, Repr

namespace Time

/-- The zero value of `time.Time`. -/
def zero : Time := ⟨0, 0⟩

/-- Go `t.Before(u)`: the instant `t` is strictly before `u`. -/
def Before (t u : Time) : Bool := decide (t.nsec < u.nsec)

/-- Go `t.After(u)`: the instant `t` is strictly after `u`. -/
def After (t u : Time) : Bool := decide (u.nsec < t.nsec)

/-- Two decimal digits, zero padded. -/
def twoDigits (n : Nat) : String :=
  ⟨[Nat.digitChar (n / 10 % 10), Nat.digitChar (n % 10)]⟩

/-- Go `t.Format("15:04:05Z")`: hour, minute and second of the wall clock, then a literal `Z`. -/
def Format (t : Time) : String :=
  let secOfDay : Nat := ((t.nsec / 1000000000 + t.offset) % 86400).toNat
  twoDigits (secOfDay / 3600) ++ ":" ++ twoDigits (secOfDay / 60 % 60) ++ ":" ++
    twoDigits (secOfDay % 60) ++ "Z"

end Time

/-! ## monitorapi data -/

/-- Structured locator `monitorapi.Locator`. -/
structure Locator where
  /-- Field `Type`. -/
  LocatorType : String
  /-- Field `Keys`. -/
  Keys : List (String × String)
deriving DecidableEq, Repr

/-- Structured message `monitorapi.Message`. -/
structure Message where
  /-- Field `Reason`. -/
  Reason : String
  /-- Field `HumanMessage`. -/
  HumanMessage : String
  /-- Field `Annotations`. -/
  Annotations : List (String × String)
deriving DecidableEq, Repr

/-- An event of the timeline, `monitorapi.Interval`, with the fields this file reads. -/
structure Interval where
  /-- Field `Source`. -/
  Source : String
  /-- Legacy locator text, printed with `%s`. -/
  Locator : String
  /-- Field `StructuredLocator`. -/
  StructuredLocator : pathologicaleventlibrary.Locator
  /-- Legacy message text, printed with `%s`. -/
  Message : String
  /-- Field `StructuredMessage`. -/
  StructuredMessage : pathologicaleventlibrary.Message
  /-- Field `From`. -/
  From : Time
  /-- Field `To`. -/
  To : Time
deriving DecidableEq, Repr

/-- What `duplicated_events.go` takes from other packages: the `monitorapi` constants, the
known-namespace set, the threshold and the allowance matcher (already applied to the
evaluator's rule list, the client configuration and the topology). -/
structure Env where
  SourceNodeState : String
  SourceE2ETest : String
  SourcePodState : String
  LocatorTypeNode : String
  LocatorTypePod : String
  LocatorTypeContainer : String
  LocatorE2ETestKey : String
  LocatorNamespaceKey : String
  LocatorPodKey : String
  LocatorContainerKey : String
  AnnotationConstructed : String
  AnnotationPhase : String
  AnnotationRoles : String
  AnnotationCount : String
  ConstructionOwnerNodeLifecycle : String
  ConstructionOwnerPodLifecycle : String
  PodReasonGracefulDeleteStarted : String
  ContainerReasonReady : String
  DuplicateEventThreshold : Int
  KnownNamespaces : List String
  MatchesAny : Locator → Message → Bool

/-! ## strconv.ParseInt at base 10 -/

/-- The two errors of `strconv`. -/
inductive NumError where
  | ErrSyntax
  | ErrRange
deriving DecidableEq, Repr

/-- Go `strconv.IntSize` on a 64-bit platform. -/
def IntSize : Nat := 64

/-- The constant `cutoff` of `ParseUint` at base 10: `maxUint64/10 + 1`. -/
def parseUintCutoff : Nat := (2 ^ 64 - 1) / 10 + 1

/-- The digit loop of `strconv.ParseUint` at base 10 over the bytes of the text, `n` being a
`uint64` accumulator. A byte that is not a decimal digit is a syntax error (at base 10 a
letter decodes to a digit value of at least 10, which is refused as well). -/
def parseUintLoop (maxVal : Nat) : List Char → Nat → Nat × Option NumError
  | [], n => (n, none)
  | c :: cs, n =>
    if c.isDigit then
      let d := c.toNat - '0'.toNat
      if n ≥ parseUintCutoff then (maxVal, some NumError.ErrRange)
      else
        let n10 := n * 10 % 2 ^ 64
        let n1 := (n10 + d) % 2 ^ 64
        if n1 < n10 ∨ n1 > maxVal then (maxVal, some NumError.ErrRange)
        else parseUintLoop maxVal cs n1
    else (0, some NumError.ErrSyntax)

/-- Go `strconv.ParseUint(s, 10, bitSize)` for `0 ≤ bitSize ≤ 64`. -/
def ParseUint (s : List Char) (bitSize : Nat) : Nat × Option NumError :=
  if s = [] then (0, some NumError.ErrSyntax)
  else
    let bitSize := if bitSize = 0 then IntSize else bitSize
    parseUintLoop (2 ^ bitSize - 1) s 0

/-- Go `strconv.ParseInt(s, 10, bitSize)` for `0 ≤ bitSize ≤ 64`. -/
def ParseInt (s : String) (bitSize : Nat) : Int × Option NumError :=
  match s.data with
  | [] => (0, some NumError.ErrSyntax)
  | c :: cs =>
    let neg : Bool := c = '-'
    let digits := if c = '+' ∨ c = '-' then cs else c :: cs
    match ParseUint digits bitSize with
    | (_, some NumError.ErrSyntax) => (0, some NumError.ErrSyntax)
    | (un, _) =>
      let bitSize := if bitSize = 0 then IntSize else bitSize
      let cutoff : Nat := 2 ^ (bitSize - 1)
      if !neg && un ≥ cutoff then (((cutoff - 1 : Nat) : Int), some NumError.ErrRange)
      else if neg && un > cutoff then (-(cutoff : Int), some NumError.ErrRange)
      else if neg then (-(un : Int), none)
      else ((un : Int), none)

/-- Go `GetTimesAnEventHappened`: 1 without a count annotation, 0 when it does not parse. -/
def GetTimesAnEventHappened (env : Env) (msg : Message) : Int :=
  match mapGet? msg.Annotations env.AnnotationCount with
  | none => 1
  | some countStr =>
    match ParseInt countStr 0 with
    | (_, some _) => 0
    | (times, none) => times

/-! ## Rendering helpers -/

/-- Go `appendToFirstLine`: appends `add` to the end of the first line of `s`. -/
def appendToFirstLine (s add : String) : String :=
  match splitLines s.data with
  | [] => ⟨joinLines []⟩
  | first :: others => ⟨joinLines ((first ++ add.data) :: others)⟩

/-- Go `getJUnitName`. -/
def getJUnitName (testName namespace_ : String) : String :=
  if namespace_ ≠ "" then testName ++ " for ns/" ++ namespace_ else testName

/-- Go `getNamespacesForJUnits`: the known namespaces with `""` inserted, as a set. -/
def getNamespacesForJUnits (env : Env) : List String :=
  if "" ∈ env.KnownNamespaces then env.KnownNamespaces else env.KnownNamespaces ++ [""]

/-- The Go type `eventResult`. -/
structure eventResult where
  failures : List String
  flakes : List String
deriving DecidableEq, Repr

/-- Go `generateFailureOutput`. -/
def generateFailureOutput (failures flakes : List String) : String :=
  let output : String :=
    if failures.length > 0 then
      sprintfD failures.length ++ " events happened too frequently\n\n" ++ stringsJoinNL failures
    else ""
  if flakes.length > 0 then
    let output := if output ≠ "" then output ++ "\n\n" else output
    output ++ (sprintfD flakes.length ++ " events with known BZs\n\n" ++ stringsJoinNL flakes)
  else output

/-- The Go type `junitapi.FailureOutput`, with the field this file sets. -/
structure FailureOutput where
  Output : String
deriving DecidableEq, Repr

/-- The Go type `junitapi.JUnitTestCase`, with the fields this file sets; a nil
`FailureOutput` is `none`. -/
structure JUnitTestCase where
  Name : String
  FailureOutput : Option pathologicaleventlibrary.FailureOutput
deriving DecidableEq, Repr

/-- The body of the loop of `generateJUnitTestCasesCoreNamespaces` for one namespace. -/
def coreNamespaceBody (testName : String) (nsResults : List (String × eventResult))
    (tests : List JUnitTestCase) (namespace_ : String) : List JUnitTestCase :=
  let jUnitName := getJUnitName testName namespace_
  match mapGet? nsResults namespace_ with
  | some result =>
    let output := generateFailureOutput result.failures result.flakes
    let tests := tests ++ [⟨jUnitName, some ⟨output⟩⟩]
    if result.failures.length = 0 ∧ result.flakes.length > 0 then
      tests ++ [⟨jUnitName, none⟩]
    else tests
  | none => tests ++ [⟨jUnitName, none⟩]

/-- Go `generateJUnitTestCasesCoreNamespaces`, the namespace set being visited in the order of
its list. -/
def generateJUnitTestCasesCoreNamespaces (env : Env) (testName : String)
    (nsResults : List (String × eventResult)) : List JUnitTestCase :=
  (getNamespacesForJUnits env).foldl (coreNamespaceBody testName nsResults) []

/-- Go `generateJUnitTestCasesE2ENamespaces`. -/
def generateJUnitTestCasesE2ENamespaces (testName : String)
    (nsResults : List (String × eventResult)) : List JUnitTestCase :=
  let tests : List JUnitTestCase :=
    match mapGet? nsResults "" with
    | some result =>
      let tests : List JUnitTestCase :=
        if result.failures.length > 0 ∨ result.flakes.length > 0 then
          [⟨testName, some ⟨generateFailureOutput result.failures result.flakes⟩⟩]
        else []
      if result.failures.length = 0 then tests ++ [⟨testName, none⟩] else tests
    | none => []
  if tests.length = 0 then tests ++ [⟨testName, none⟩] else tests

/-! ## Exemption windows -/

/-- The filter that selects the node-update intervals (updates of master nodes). -/
def isNodeUpdateInterval (env : Env) (eventInterval : Interval) : Bool :=
  decide (eventInterval.Source = env.SourceNodeState) &&
  decide (eventInterval.StructuredLocator.LocatorType = env.LocatorTypeNode) &&
  decide (mapIndex eventInterval.StructuredMessage.Annotations env.AnnotationConstructed
    = env.ConstructionOwnerNodeLifecycle) &&
  decide (mapIndex eventInterval.StructuredMessage.Annotations env.AnnotationPhase = "Update") &&
  stringsContains (mapIndex eventInterval.StructuredMessage.Annotations env.AnnotationRoles)
    "master"

/-- The local `nodeUpdateIntervals` of `testDuplicatedEvents`. -/
def nodeUpdateIntervals (env : Env) (events : List Interval) : List Interval :=
  events.filter (isNodeUpdateInterval env)

/-- The loop that sets `foundOverlap`: some node-update interval starts before the event's
`From` and ends after its `To`. -/
def foundOverlap (event : Interval) : List Interval → Bool
  | [] => false
  | nui :: rest =>
    if nui.From.Before event.From && nui.To.After event.To then true
    else foundOverlap event rest

/-- The local type `timeRange`. -/
structure timeRange where
  from_ : Time
  to_ : Time
deriving DecidableEq, Repr

/-- The filter that selects the `NoExecuteTaintManager` test intervals. -/
def isTaintManagerTestInterval (env : Env) (eventInterval : Interval) : Bool :=
  decide (eventInterval.Source = env.SourceE2ETest) &&
  stringsContains (mapIndex eventInterval.StructuredLocator.Keys env.LocatorE2ETestKey)
    "NoExecuteTaintManager"

/-- The filter that selects the pod-lifecycle intervals of namespace `openshift-dns`. -/
def isDnsUpdateInterval (env : Env) (eventInterval : Interval) : Bool :=
  decide (eventInterval.Source = env.SourcePodState) &&
  (decide (eventInterval.StructuredLocator.LocatorType = env.LocatorTypePod) ||
    decide (eventInterval.StructuredLocator.LocatorType = env.LocatorTypeContainer)) &&
  decide (mapIndex eventInterval.StructuredLocator.Keys env.LocatorNamespaceKey
    = "openshift-dns") &&
  decide (mapIndex eventInterval.StructuredMessage.Annotations env.AnnotationConstructed
    = env.ConstructionOwnerPodLifecycle)

/-- The counter after the graceful-delete test of the widening loop. -/
def countAfterDelete (env : Env) (interval : Interval) (count : Int) : Int :=
  if interval.StructuredMessage.Reason = env.PodReasonGracefulDeleteStarted ∧
      stringsContains (mapIndex interval.StructuredLocator.Keys env.LocatorPodKey)
        "dns-default" = true then
    count + 1
  else count

/-- The test of the widening loop that takes a ready event of container `dns` into account. -/
def isCountedReady (env : Env) (interval : Interval) (count : Int) : Bool :=
  decide (interval.StructuredMessage.Reason = env.ContainerReasonReady) &&
  decide (mapIndex interval.StructuredLocator.Keys env.LocatorContainerKey = "dns") &&
  decide (count > 0)

/-- The inner loop over `dnsUpdateIntervals` for one range `r`, from the state
`(lastReadyTime, count)`: the value of `r.to` when the loop is left. The range is written
only right before `break`, so `r.to` is the base end during the whole loop. -/
def widenLoop (env : Env) (r : timeRange) : List Interval → Time → Int → Time
  | [], _, _ => r.to_
  | interval :: rest, lastReadyTime, count =>
    if interval.From.Before r.from_ then widenLoop env r rest lastReadyTime count
    else
      let count := countAfterDelete env interval count
      let ready := isCountedReady env interval count
      let lastReadyTime := if ready then interval.From else lastReadyTime
      let count := if ready then count - 1 else count
      if interval.From.After r.to_ && decide (count = 0) then
        if lastReadyTime.After r.to_ then lastReadyTime else r.to_
      else widenLoop env r rest lastReadyTime count

/-- One round of the loop "expand the allowed time range until the replacement dns pod gets
ready": the range `r` after it. -/
def expandTimeRange (env : Env) (dnsUpdateIntervals : List Interval) (r : timeRange) :
    timeRange :=
  { r with to_ := widenLoop env r dnsUpdateIntervals Time.zero 0 }

/-- The block guarded by `buildTopologyHintAllowedTimeRanges`: the ranges after it, from the
ranges before it (the empty list, in the program). -/
def builtTopologyHintAllowedTimeRanges (env : Env) (events : List Interval)
    (topologyHintAllowedTimeRanges : List timeRange) : List timeRange :=
  let taintManagerTestIntervals := events.filter (isTaintManagerTestInterval env)
  let topologyHintAllowedTimeRanges := topologyHintAllowedTimeRanges ++
    taintManagerTestIntervals.map (fun test => ({ from_ := test.From, to_ := test.To } : timeRange))
  let dnsUpdateIntervals := events.filter (isDnsUpdateInterval env)
  topologyHintAllowedTimeRanges.map (expandTimeRange env dnsUpdateIntervals)

/-- The loop that sets `allowed`: some range starts before the event's `From` and ends after
its `To`. -/
def allowedByTimeRanges (event : Interval) : List timeRange → Bool
  | [] => false
  | r :: rest =>
    if r.from_.Before event.From && r.to_.After event.To then true
    else allowedByTimeRanges event rest

/-! ## The detection loop -/

/-- The zero value of `monitorapi.Interval`, which indexing a map gives for a missing key. -/
def Interval.zero : Interval :=
  { Source := "", Locator := "", StructuredLocator := ⟨"", []⟩, Message := "",
    StructuredMessage := ⟨"", "", []⟩, From := Time.zero, To := Time.zero }

/-- The local `eventDisplayMessage`: `fmt.Sprintf("%s - reason/%s %s", ...)`. -/
def eventDisplayMessage (event : Interval) : String :=
  event.Locator ++ " - reason/" ++ event.StructuredMessage.Reason ++ " " ++
    event.StructuredMessage.HumanMessage

/-- The end of the loop body, from `times := GetTimesAnEventHappened(...)` on: the map
`displayToCount` after it. -/
def recordEvent (env : Env) (displayToCount : List (String × Interval)) (event : Interval) :
    List (String × Interval) :=
  let times := GetTimesAnEventHappened env event.StructuredMessage
  if times > env.DuplicateEventThreshold then
    if env.MatchesAny event.StructuredLocator event.StructuredMessage = true then displayToCount
    else
      let key := eventDisplayMessage event
      let displayToCount :=
        match mapGet? displayToCount key with
        | some _ => displayToCount
        | none => mapSet displayToCount key event
      if times > GetTimesAnEventHappened env
          ((mapGet? displayToCount key).getD Interval.zero).StructuredMessage then
        mapSet displayToCount key event
      else displayToCount
  else displayToCount

/-- The variables that the detection loop of `testDuplicatedEvents` updates. -/
structure LoopState where
  buildTopologyHintAllowedTimeRanges : Bool
  topologyHintAllowedTimeRanges : List timeRange
  displayToCount : List (String × Interval)
deriving DecidableEq, Repr

/-- The state before the first event. -/
def LoopState.init : LoopState :=
  { buildTopologyHintAllowedTimeRanges := true, topologyHintAllowedTimeRanges := [],
    displayToCount := [] }

/-- The state after the block "Build the allowed time range only once". -/
def buildOnce (env : Env) (events : List Interval) (st : LoopState) : LoopState :=
  if st.buildTopologyHintAllowedTimeRanges = true then
    { st with
      topologyHintAllowedTimeRanges :=
        builtTopologyHintAllowedTimeRanges env events st.topologyHintAllowedTimeRanges
      buildTopologyHintAllowedTimeRanges := false }
  else st

/-- The body of the loop `for _, event := range events` of `testDuplicatedEvents`;
`nodeUpdateIntervals` is the list computed before the loop. -/
def loopBody (env : Env) (events nodeUpdateIntervals : List Interval) (st : LoopState)
    (event : Interval) : LoopState :=
  if event.StructuredMessage.Reason = "FailedScheduling" ∧
      foundOverlap event nodeUpdateIntervals = true then st
  else if event.StructuredMessage.Reason = "TopologyAwareHintsDisabled" then
    let st := buildOnce env events st
    if allowedByTimeRanges event st.topologyHintAllowedTimeRanges = true then st
    else { st with displayToCount := recordEvent env st.displayToCount event }
  else { st with displayToCount := recordEvent env st.displayToCount event }

/-- The detection loop of `testDuplicatedEvents`: the state after the last event. -/
def detectionLoop (env : Env) (events : List Interval) : LoopState :=
  events.foldl (loopBody env events (nodeUpdateIntervals env events)) LoopState.init

/-- The map `displayToCount` of `testDuplicatedEvents` after the detection loop. -/
def displayToCount (env : Env) (events : List Interval) : List (String × Interval) :=
  (detectionLoop env events).displayToCount

/-! ## Namespace buckets -/

/-- The text `msg` rendered for one entry of `displayToCount`. -/
def renderedMsg (env : Env) (intervalDisplayMsg : String) (interval : Interval) : String :=
  let intervalMsgWithTime := intervalDisplayMsg ++ " From: " ++ interval.From.Format ++
    " To: " ++ interval.To.Format
  "event happened " ++ sprintfD (GetTimesAnEventHappened env interval.StructuredMessage) ++
    " times, something is wrong: " ++ intervalMsgWithTime

/-- The bucket key of one representative: its namespace when known, `""` otherwise. -/
def bucketNamespace (env : Env) (interval : Interval) : String :=
  let namespace_ := mapIndex interval.StructuredLocator.Keys env.LocatorNamespaceKey
  if namespace_ ∈ env.KnownNamespaces then namespace_ else ""

/-- The line that one representative adds to its bucket: `msg` with the marker of the mode
appended to its first line. -/
def renderedLine (env : Env) (flakeOnly : Bool) (intervalDisplayMsg : String)
    (interval : Interval) : String :=
  if flakeOnly = true then
    appendToFirstLine (renderedMsg env intervalDisplayMsg interval) " result=allow "
  else appendToFirstLine (renderedMsg env intervalDisplayMsg interval) " result=reject "

/-- The body of the loop `for intervalDisplayMsg, interval := range displayToCount`. The
buckets are pointers: the append changes the bucket stored under the key. -/
def nsResultsBody (env : Env) (flakeOnly : Bool) (nsResults : List (String × eventResult))
    (entry : String × Interval) : List (String × eventResult) :=
  let intervalDisplayMsg := entry.1
  let interval := entry.2
  let namespace_ := bucketNamespace env interval
  let nsResults :=
    match mapGet? nsResults namespace_ with
    | some _ => nsResults
    | none => mapSet nsResults namespace_ ⟨[], []⟩
  let bucket := (mapGet? nsResults namespace_).getD ⟨[], []⟩
  let msg := renderedMsg env intervalDisplayMsg interval
  if flakeOnly = true then
    mapSet nsResults namespace_
      { bucket with flakes := bucket.flakes ++ [appendToFirstLine msg " result=allow "] }
  else
    mapSet nsResults namespace_
      { bucket with failures := bucket.failures ++ [appendToFirstLine msg " result=reject "] }

/-- The map `nsResults` built from a signature map that is visited in the order of its
list (Go visits a map in an unspecified order). -/
def buildNsResults (env : Env) (flakeOnly : Bool) (displayToCount : List (String × Interval)) :
    List (String × eventResult) :=
  displayToCount.foldl (nsResultsBody env flakeOnly) []

/-- Go `testDuplicatedEvents`, the maps being visited in the order of their lists. -/
def testDuplicatedEvents (env : Env) (testName : String) (flakeOnly : Bool)
    (events : List Interval) (isE2E : Bool) : List JUnitTestCase :=
  let nsResults := buildNsResults env flakeOnly (displayToCount env events)
  if isE2E = true then generateJUnitTestCasesE2ENamespaces testName nsResults
  else generateJUnitTestCasesCoreNamespaces env testName nsResults

/-! ## The allowance of etcd guard probe failures -/

/-- The Go type `etcdRevisionChangeAllowance`; the compiled pattern is given by its
`MatchString` function. -/
structure etcdRevisionChangeAllowance where
  allowedGuardProbeFailurePattern : String → Bool
  maxAllowedGuardProbeFailurePerRevision : Int
  currentRevision : Int

/-- The product of two Go `int` values, wrapped to 64 bits. -/
def mulInt64 (a b : Int) : Int :=
  (a * b + 2 ^ 63) % 2 ^ 64 - 2 ^ 63

/-- Go `allowEtcdGuardReadinessProbeFailure`; the error it returns is always nil. -/
def allowEtcdGuardReadinessProbeFailure (a : etcdRevisionChangeAllowance)
    (monitorEvent : Interval) (times : Int) : Bool × Option String :=
  let eventMessage := monitorEvent.Locator ++ " - " ++ monitorEvent.Message
  if a.allowedGuardProbeFailurePattern eventMessage = true ∧
      mulInt64 a.maxAllowedGuardProbeFailurePerRevision a.currentRevision > times then
    (true, none)
  else (false, none)

/-! ## The test utility -/

/-- Modelled from the spec: the builders of package `monitorapi`
(`NewInterval(source, level).Locator(l).Message(m).BuildNow()` and
`NewMessage().Reason(r).HumanMessage(h).WithAnnotation(k, v)`) are not in the source. By the
data model of the spec an event has a source, a locator, a message with a reason, a human
text and annotations, and two timestamps: the built interval has the given source, the
structured locator `l`, the structured message with the given reason, human message and
the one annotation, and the time of the call as `From` and `To`. The legacy texts of the
locator and of the message and the time of the call are parameters. -/
def buildIntervalNow (legacyLocator : Locator → String) (legacyMessage : Message → String)
    (now : Time) (source : String) (l : Locator) (reason humanMessage : String)
    (annotationKey annotationValue : String) : Interval :=
  { Source := source, Locator := legacyLocator l, StructuredLocator := l,
    Message := legacyMessage ⟨reason, humanMessage, mapSet [] annotationKey annotationValue⟩,
    StructuredMessage := ⟨reason, humanMessage, mapSet [] annotationKey annotationValue⟩,
    From := now, To := now }

/-- Go `BuildTestDupeKubeEvent`; `SourceKubeEvent` is the constant of package `monitorapi`. -/
def BuildTestDupeKubeEvent (env : Env) (SourceKubeEvent : String)
    (legacyLocator : Locator → String) (legacyMessage : Message → String) (now : Time)
    (namespace_ pod reason msg : String) (count : Int) : Interval :=
  let keys : List (String × String) := []
  let keys := if namespace_ ≠ "" then mapSet keys env.LocatorNamespaceKey namespace_ else keys
  let keys := if pod ≠ "" then mapSet keys env.LocatorPodKey namespace_ else keys
  let l : Locator := { LocatorType := env.LocatorTypePod, Keys := keys }
  buildIntervalNow legacyLocator legacyMessage now SourceKubeEvent l reason msg
    env.AnnotationCount (sprintfD count)

/-! ## Notions used to state the properties -/

/-- The value of a list of decimal digits, read from the left, above the value `acc`. -/
def decimalValue (acc : Nat) (digits : List Char) : Nat :=
  digits.foldl (fun a c => 10 * a + (c.toNat - '0'.toNat)) acc

/-- The text `s` is the base-10 text of the integer `n`: an optional sign followed by at
least one decimal digit. -/
def IsDecimalText (s : String) (n : Int) : Prop :=
  ∃ digits : List Char, digits ≠ [] ∧ (∀ c ∈ digits, c.isDigit = true) ∧
    ((s.data = digits ∧ n = (decimalValue 0 digits : Int)) ∨
     (s.data = '+' :: digits ∧ n = (decimalValue 0 digits : Int)) ∨
     (s.data = '-' :: digits ∧ n = -(decimalValue 0 digits : Int)))

/-- The integer `n` fits the platform `int` (64 bits). -/
def FitsInt (n : Int) : Prop :=
  -(2 : Int) ^ 63 ≤ n ∧ n < (2 : Int) ^ 63

/-- A sample instance of the parameters: the names of the `monitorapi` constants, a threshold
of 20, three known namespaces and an allowance matcher that allows nothing. -/
def sampleEnv : Env :=
  { SourceNodeState := "NodeState", SourceE2ETest := "E2ETest", SourcePodState := "PodState",
    LocatorTypeNode := "Node", LocatorTypePod := "Pod", LocatorTypeContainer := "Container",
    LocatorE2ETestKey := "e2e-test", LocatorNamespaceKey := "namespace",
    LocatorPodKey := "pod", LocatorContainerKey := "container",
    AnnotationConstructed := "constructed", AnnotationPhase := "phase",
    AnnotationRoles := "roles", AnnotationCount := "count",
    ConstructionOwnerNodeLifecycle := "node-lifecycle-constructor",
    ConstructionOwnerPodLifecycle := "pod-lifecycle-constructor",
    PodReasonGracefulDeleteStarted := "GracefulDelete", ContainerReasonReady := "Ready",
    DuplicateEventThreshold := 20,
    KnownNamespaces := ["openshift-etcd", "openshift-dns", "default"],
    MatchesAny := fun _ _ => false }

/-- The instant `n` seconds after the zero time, in UTC. -/
def atSecond (n : Int) : Time := ⟨n * 1000000000, 0⟩

/-- The topology-hint allowed time ranges of an event list: what the block guarded by
`buildTopologyHintAllowedTimeRanges` builds when it runs. -/
def topologyHintAllowedTimeRanges (env : Env) (events : List Interval) : List timeRange :=
  builtTopologyHintAllowedTimeRanges env events []

/-- The body of the detection loop of a variant of `testDuplicatedEvents` that is given the
node-update intervals and the topology-hint ranges, both computed before the loop. -/
def loopBodyPrecomputed (env : Env) (nodeUpdateIntervals : List Interval)
    (ranges : List timeRange) (displayToCount : List (String × Interval)) (event : Interval) :
    List (String × Interval) :=
  if event.StructuredMessage.Reason = "FailedScheduling" ∧
      foundOverlap event nodeUpdateIntervals = true then displayToCount
  else if event.StructuredMessage.Reason = "TopologyAwareHintsDisabled" ∧
      allowedByTimeRanges event ranges = true then displayToCount
  else recordEvent env displayToCount event

/-- The signature map of the variant that computes the node-update intervals and the
topology-hint ranges once, before the detection loop starts. -/
def displayToCountPrecomputed (env : Env) (events : List Interval) :
    List (String × Interval) :=
  events.foldl
    (loopBodyPrecomputed env (nodeUpdateIntervals env events)
      (topologyHintAllowedTimeRanges env events)) []

/-- The window from `from_` to `to_` starts strictly before the event's `From` and ends
strictly after its `To`. -/
def strictlyInside (event : Interval) (from_ to_ : Time) : Bool :=
  decide (from_.nsec < event.From.nsec) && decide (event.To.nsec < to_.nsec)

/-- The event is a `FailedScheduling` event strictly inside a node-update interval of the
list. -/
def isExemptFailedScheduling (env : Env) (events : List Interval) (event : Interval) : Bool :=
  decide (event.StructuredMessage.Reason = "FailedScheduling") &&
  (nodeUpdateIntervals env events).any (fun nui => strictlyInside event nui.From nui.To)

/-- The event is a `TopologyAwareHintsDisabled` event strictly inside a topology-hint allowed
time range of the list. -/
def isExemptTopologyHint (env : Env) (events : List Interval) (event : Interval) : Bool :=
  decide (event.StructuredMessage.Reason = "TopologyAwareHintsDisabled") &&
  (topologyHintAllowedTimeRanges env events).any (fun r => strictlyInside event r.from_ r.to_)

/-- The event is not exempt, its repeat count is over the threshold and `MatchesAny` does not
allow it. -/
def isReportable (env : Env) (events : List Interval) (event : Interval) : Bool :=
  !isExemptFailedScheduling env events event &&
  !isExemptTopologyHint env events event &&
  decide (GetTimesAnEventHappened env event.StructuredMessage > env.DuplicateEventThreshold) &&
  !env.MatchesAny event.StructuredLocator event.StructuredMessage

/-- One step of the scan that the widening of a range describes, on the pair of the last
ready time and the pending counter: events that start before the range are passed over, a
graceful delete of a `dns-default` pod adds one, and a ready event of container `dns` seen
while the counter is positive is remembered and takes one off. -/
def scanStep (env : Env) (r : timeRange) (s : Time × Int) (interval : Interval) : Time × Int :=
  if interval.From.Before r.from_ = true then s
  else if isCountedReady env interval (countAfterDelete env interval s.2) = true then
    (interval.From, countAfterDelete env interval s.2 - 1)
  else (s.1, countAfterDelete env interval s.2)

/-- The last ready time (the zero time when there is none) and the pending counter after a
scan of the whole list. -/
def scanState (env : Env) (r : timeRange) (intervals : List Interval) : Time × Int :=
  intervals.foldl (scanStep env r) (Time.zero, 0)

/-- The widened end when the whole list is scanned: the last ready time when it is later than
the base end and the counter is back to zero, the base end otherwise. -/
def widenedEndOfFullScan (env : Env) (r : timeRange) (intervals : List Interval) : Time :=
  if (scanState env r intervals).1.After r.to_ = true ∧ (scanState env r intervals).2 = 0 then
    (scanState env r intervals).1
  else r.to_

/-- The scan stops at `interval`, met after the intervals `before`: it does not start before
the range, it starts after the base end, and the counter is zero once it is handled. -/
def stopsAt (env : Env) (r : timeRange) (before : List Interval) (interval : Interval) : Prop :=
  interval.From.Before r.from_ = false ∧ interval.From.After r.to_ = true ∧
    (scanState env r (before ++ [interval])).2 = 0

/-- The state of the detection loop is either untouched by the build, or holds the ranges of
the whole event list. -/
def RangesSettled (env : Env) (events : List Interval) (st : LoopState) : Prop :=
  (st.buildTopologyHintAllowedTimeRanges = true ∧ st.topologyHintAllowedTimeRanges = []) ∨
  (st.buildTopologyHintAllowedTimeRanges = false ∧
    st.topologyHintAllowedTimeRanges = topologyHintAllowedTimeRanges env events)

/-- The verdicts that one round of the loop of `generateJUnitTestCasesCoreNamespaces` adds
for a namespace. -/
def coreNamespaceVerdicts (testName : String) (nsResults : List (String × eventResult))
    (namespace_ : String) : List JUnitTestCase :=
  match mapGet? nsResults namespace_ with
  | some result =>
    ⟨getJUnitName testName namespace_,
      some ⟨generateFailureOutput result.failures result.flakes⟩⟩ ::
      (if result.failures.length = 0 ∧ result.flakes.length > 0 then
        [⟨getJUnitName testName namespace_, none⟩]
      else [])
  | none => [⟨getJUnitName testName namespace_, none⟩]

/-- The lines of the representatives whose bucket key is `key`, in the order in which the
signature map is visited. -/
def bucketLines (env : Env) (flakeOnly : Bool) (signatures : List (String × Interval))
    (key : String) : List String :=
  (signatures.filter (fun p => decide (bucketNamespace env p.2 = key))).map
    (fun p => renderedLine env flakeOnly p.1 p.2)

/-- The name of a verdict and whether it is a failure (it carries a failure output). -/
def verdictStatus (t : JUnitTestCase) : String × Bool :=
  (t.Name, t.FailureOutput.isSome)

/-- The verdicts of `testDuplicatedEvents` from the map `nsResults`. -/
def verdictsOf (env : Env) (testName : String) (isE2E : Bool)
    (nsResults : List (String × eventResult)) : List JUnitTestCase :=
  if isE2E = true then generateJUnitTestCasesE2ENamespaces testName nsResults
  else generateJUnitTestCasesCoreNamespaces env testName nsResults

/-! ## Sample events -/

/-- A kube event with the given locator text, namespace, reason, count text and time span. -/
def sampleKubeEvent (locator namespace_ reason count : String) (from_ to_ : Int) : Interval :=
  { Source := "KubeEvent", Locator := locator,
    StructuredLocator := ⟨"Pod", [("namespace", namespace_)]⟩, Message := "",
    StructuredMessage := ⟨reason, "repeated", [("count", count)]⟩,
    From := atSecond from_, To := atSecond to_ }

/-- An update of a master node over the given time span. -/
def sampleNodeUpdate (from_ to_ : Int) : Interval :=
  { Source := "NodeState", Locator := "node/master-0",
    StructuredLocator := ⟨"Node", [("node", "master-0")]⟩, Message := "",
    StructuredMessage := ⟨"NodeUpdate", "",
      [("constructed", "node-lifecycle-constructor"), ("phase", "Update"),
       ("roles", "control-plane,master")]⟩,
    From := atSecond from_, To := atSecond to_ }

/-- A run of a `NoExecuteTaintManager` test over the given time span. -/
def sampleTaintManagerTest (from_ to_ : Int) : Interval :=
  { Source := "E2ETest", Locator := "e2e-test/taint",
    StructuredLocator := ⟨"E2ETest", [("e2e-test", "[sig-node] NoExecuteTaintManager Single Pod")]⟩,
    Message := "", StructuredMessage := ⟨"", "", []⟩,
    From := atSecond from_, To := atSecond to_ }

/-- A pod-lifecycle event of namespace `openshift-dns` that starts at the given second. -/
def sampleDnsEvent (locatorType reason pod container : String) (from_ : Int) : Interval :=
  { Source := "PodState", Locator := "ns/openshift-dns pod/" ++ pod,
    StructuredLocator :=
      ⟨locatorType, [("namespace", "openshift-dns"), ("pod", pod), ("container", container)]⟩,
    Message := "",
    StructuredMessage := ⟨reason, "", [("constructed", "pod-lifecycle-constructor")]⟩,
    From := atSecond from_, To := atSecond from_ }

/-- An update of a master node from second 0 to second 10, a `FailedScheduling` event that
lies strictly inside it, and a `FailedScheduling` event with the same start and end. -/
def sampleUpdateEvents : List Interval :=
  [sampleNodeUpdate 0 10,
   sampleKubeEvent "ns/openshift-etcd pod/etcd-1" "openshift-etcd" "FailedScheduling" "30" 1 9,
   sampleKubeEvent "ns/openshift-etcd pod/etcd-2" "openshift-etcd" "FailedScheduling" "21" 0 10]

/-- Two replacements of a `dns-default` pod: a graceful delete at second 1 answered by a ready
`dns` container at second 6, and a graceful delete at second 7 answered at second 8. -/
def sampleDnsEvents : List Interval :=
  [sampleDnsEvent "Pod" "GracefulDelete" "dns-default-a" "" 1,
   sampleDnsEvent "Container" "Ready" "dns-default-b" "dns" 6,
   sampleDnsEvent "Pod" "GracefulDelete" "dns-default-b" "" 7,
   sampleDnsEvent "Container" "Ready" "dns-default-c" "dns" 8]

/-- A `NoExecuteTaintManager` test from second 0 to second 5, then `sampleDnsEvents`. -/
def sampleTaintEvents : List Interval :=
  sampleTaintManagerTest 0 5 :: sampleDnsEvents

/-- Three reportable events with one signature and the counts 25, 27 and 27, and one with
the count 20, which is not over the threshold. -/
def sampleRepeatedEvents : List Interval :=
  [sampleKubeEvent "ns/default pod/web" "default" "BackOff" "25" 1 2,
   sampleKubeEvent "ns/default pod/web" "default" "BackOff" "27" 3 4,
   sampleKubeEvent "ns/default pod/web" "default" "BackOff" "27" 5 6,
   sampleKubeEvent "ns/default pod/web" "default" "BackOff" "20" 7 8]

/-- A reportable event whose human message has two lines. -/
def sampleMultiLineEvent : Interval :=
  { Source := "KubeEvent", Locator := "ns/a pod/p",
    StructuredLocator := ⟨"Pod", [("namespace", "a")]⟩, Message := "",
    StructuredMessage := ⟨"BackOff", "one\ntwo", [("count", "21")]⟩,
    From := atSecond 1, To := atSecond 2 }

/-- An allowance with a budget of 12 per revision at revision 5; the pattern is stood in for
by a test that the text names an etcd guard pod and a readiness probe. -/
def sampleEtcdAllowance : etcdRevisionChangeAllowance :=
  { allowedGuardProbeFailurePattern := fun s =>
      stringsContains s "ns/openshift-etcd pod/etcd-guard-" &&
        stringsContains s "Readiness probe",
    maxAllowedGuardProbeFailurePerRevision := 12,
    currentRevision := 5 }

/-- A readiness probe failure of an etcd guard pod. -/
def sampleGuardEvent : Interval :=
  { Source := "KubeEvent", Locator := "ns/openshift-etcd pod/etcd-guard-1 node/n1",
    StructuredLocator := ⟨"Pod", [("namespace", "openshift-etcd")]⟩,
    Message := "reason/Unhealthy Readiness probe failed",
    StructuredMessage := ⟨"Unhealthy", "Readiness probe failed", [("count", "60")]⟩,
    From := atSecond 1, To := atSecond 2 }

/-! ## Repeat counts: `strconv.ParseInt` and `GetTimesAnEventHappened` -/


theorem decimalValue_cons (acc : Nat) (c : Char) (cs : List Char) :
    decimalValue acc (c :: cs) = decimalValue (10 * acc + (c.toNat - '0'.toNat)) cs := rfl

theorem le_decimalValue (cs : List Char) : ∀ acc, acc ≤ decimalValue acc cs := by
  induction cs with
  | nil => intro acc; exact le_refl _
  | cons c cs ih =>
    intro acc
    rw [decimalValue_cons]
    exact le_trans (by omega) (ih _)

theorem digit_le_nine (c : Char) (h : c.isDigit = true) : c.toNat - '0'.toNat ≤ 9 := by
  simp only [Char.isDigit, Bool.and_eq_true, decide_eq_true_eq] at h
  have h2 : c.val.toNat ≤ 57 := h.2
  have h3 : '0'.toNat = 48 := rfl
  rw [h3]
  show c.val.toNat - 48 ≤ 9
  omega

theorem parseUintLoop_digits (cs : List Char) :
    ∀ n, n ≤ 2 ^ 64 - 1 → (∀ c ∈ cs, c.isDigit = true) →
      parseUintLoop (2 ^ 64 - 1) cs n =
        if decimalValue n cs ≤ 2 ^ 64 - 1 then (decimalValue n cs, none)
        else (2 ^ 64 - 1, some NumError.ErrRange) := by
  induction cs with
  | nil =>
    intro n hn _
    have hn2 : decimalValue n [] ≤ 2 ^ 64 - 1 := hn
    rw [if_pos hn2]
    rfl
  | cons c cs ih =>
    intro n hn hd
    have hc : c.isDigit = true := hd c (List.mem_cons_self _ _)
    have hcs : ∀ x ∈ cs, x.isDigit = true := fun x hx => hd x (List.mem_cons_of_mem _ hx)
    have h9 := digit_le_nine c hc
    have hge := le_decimalValue cs (10 * n + (c.toNat - '0'.toNat))
    rw [decimalValue_cons]
    simp only [parseUintLoop, hc, if_true, parseUintCutoff]
    norm_num at hn hge ⊢
    by_cases h1 : 1844674407370955162 ≤ n
    · rw [if_pos h1, if_neg (by omega)]
    · rw [if_neg h1]
      have e10 : n * 10 % 18446744073709551616 = n * 10 := Nat.mod_eq_of_lt (by omega)
      rw [e10]
      by_cases h2 : n * 10 + (c.toNat - '0'.toNat) < 18446744073709551616
      · have e1 : (n * 10 + (c.toNat - '0'.toNat)) % 18446744073709551616
            = n * 10 + (c.toNat - '0'.toNat) := Nat.mod_eq_of_lt h2
        rw [e1, if_neg (by omega)]
        have := ih (n * 10 + (c.toNat - '0'.toNat)) (by norm_num; omega) hcs
        norm_num at this
        rw [this, Nat.mul_comm n 10]
      · rw [if_pos (by omega), if_neg (by omega)]

theorem parseUintLoop_none (maxVal : Nat) (cs : List Char) :
    ∀ n, (parseUintLoop maxVal cs n).2 = none → ∀ c ∈ cs, c.isDigit = true := by
  induction cs with
  | nil => intro n _ c hc; cases hc
  | cons c cs ih =>
    intro n h x hx
    by_cases hc : c.isDigit = true
    · simp only [parseUintLoop, hc, if_true] at h
      split at h
      · cases h
      · split at h
        · cases h
        · rcases List.mem_cons.1 hx with rfl | hx
          · exact hc
          · exact ih _ h x hx
    · simp [parseUintLoop, hc] at h

theorem ParseUint_digits (ds : List Char) (hne : ds ≠ []) (hd : ∀ c ∈ ds, c.isDigit = true) :
    ParseUint ds 0 =
      if decimalValue 0 ds ≤ 2 ^ 64 - 1 then (decimalValue 0 ds, none)
      else (2 ^ 64 - 1, some NumError.ErrRange) := by
  simp only [ParseUint, hne, if_false, IntSize, if_true]
  exact parseUintLoop_digits ds 0 (Nat.zero_le _) hd

theorem ParseUint_none (ds : List Char) (h : (ParseUint ds 0).2 = none) :
    ds ≠ [] ∧ (∀ c ∈ ds, c.isDigit = true) := by
  by_cases hne : ds = []
  · simp [ParseUint, hne] at h
  · refine ⟨hne, ?_⟩
    simp only [ParseUint, hne, if_false, IntSize, if_true] at h
    exact parseUintLoop_none _ ds 0 h

theorem ParseInt_signed (s : String) (c : Char) (cs ds : List Char) (hs : s.data = c :: cs)
    (hds : ds = if c = '+' ∨ c = '-' then cs else c :: cs)
    (hne : ds ≠ []) (hd : ∀ x ∈ ds, x.isDigit = true) :
    ParseInt s 0 =
      if c = '-' then
        (if decimalValue 0 ds ≤ 2 ^ 63 then (-(decimalValue 0 ds : Int), none)
         else (-(2 ^ 63 : Int), some NumError.ErrRange))
      else
        (if decimalValue 0 ds < 2 ^ 63 then ((decimalValue 0 ds : Int), none)
         else ((2 ^ 63 - 1 : Int), some NumError.ErrRange)) := by
  have hU := ParseUint_digits ds hne hd
  unfold ParseInt
  rw [hs]
  simp only []
  rw [← hds, hU]
  by_cases hle : decimalValue 0 ds ≤ 2 ^ 64 - 1
  · rw [if_pos hle]
    by_cases hneg : c = '-'
    · simp only [hneg, IntSize, if_true, decide_True]
      norm_num
      by_cases h63 : decimalValue 0 ds ≤ 9223372036854775808
      · simp [h63]
      · simp [h63]
    · simp only [hneg, IntSize, if_true, if_false, decide_False]
      norm_num
      by_cases h63 : decimalValue 0 ds < 9223372036854775808
      · simp [h63]
      · simp [h63]
  · rw [if_neg hle]
    norm_num at hle
    by_cases hneg : c = '-'
    · simp only [hneg, IntSize, if_true, decide_True]
      norm_num
      rw [if_neg (by omega)]
    · simp only [hneg, IntSize, if_true, if_false, decide_False]
      norm_num
      rw [if_neg (by omega)]

theorem parseUintLoop_range (maxVal : Nat) (cs : List Char) :
    ∀ n, (parseUintLoop maxVal cs n).2 = some NumError.ErrRange →
      (parseUintLoop maxVal cs n).1 = maxVal := by
  induction cs with
  | nil => intro n h; simp [parseUintLoop] at h
  | cons c cs ih =>
    intro n h
    by_cases hc : c.isDigit = true
    · simp only [parseUintLoop, hc, if_true] at h ⊢
      split
      · rfl
      · rename_i h1
        rw [if_neg h1] at h
        split
        · rfl
        · rename_i h2
          rw [if_neg h2] at h
          exact ih _ h
    · simp [parseUintLoop, hc] at h

theorem ParseUint_range (ds : List Char) (h : (ParseUint ds 0).2 = some NumError.ErrRange) :
    (ParseUint ds 0).1 = 2 ^ 64 - 1 := by
  by_cases hne : ds = []
  · simp [ParseUint, hne] at h
  · simp only [ParseUint, hne, if_false, IntSize, if_true] at h ⊢
    exact parseUintLoop_range _ ds 0 h

theorem ParseInt_of_error (s : String) (c : Char) (cs : List Char) (hs : s.data = c :: cs)
    (h : (ParseUint (if c = '+' ∨ c = '-' then cs else c :: cs) 0).2 ≠ none) :
    (ParseInt s 0).2 ≠ none := by
  have hr := ParseUint_range (if c = '+' ∨ c = '-' then cs else c :: cs)
  unfold ParseInt
  rw [hs]
  simp only []
  generalize ParseUint (if c = '+' ∨ c = '-' then cs else c :: cs) 0 = r at h hr
  obtain ⟨un, err⟩ := r
  cases err with
  | none => exact absurd rfl h
  | some e =>
    cases e with
    | ErrSyntax => simp
    | ErrRange =>
      have hun : un = 2 ^ 64 - 1 := hr rfl
      subst hun
      by_cases hneg : c = '-'
      · simp [hneg, IntSize]
      · simp [hneg, IntSize]

theorem ParseInt_of_decimalText (s : String) (n : Int) (h : IsDecimalText s n)
    (hfit : FitsInt n) : ParseInt s 0 = (n, none) := by
  obtain ⟨ds, hne, hd, hcase⟩ := h
  obtain ⟨hlo, hhi⟩ := hfit
  rcases hcase with ⟨hs, hn⟩ | ⟨hs, hn⟩ | ⟨hs, hn⟩
  · obtain ⟨c, cs, rfl⟩ := List.exists_cons_of_ne_nil hne
    have hc : c.isDigit = true := hd c (List.mem_cons_self _ _)
    have hp : c ≠ '+' := by rintro rfl; exact absurd hc (by decide)
    have hm : c ≠ '-' := by rintro rfl; exact absurd hc (by decide)
    rw [ParseInt_signed s c cs (c :: cs) hs (by simp [hp, hm]) hne hd, if_neg hm, if_pos (by omega),
      hn]
  · rw [ParseInt_signed s '+' ds ds hs (by simp) hne hd, if_neg (by decide), if_pos (by omega),
      hn]
  · rw [ParseInt_signed s '-' ds ds hs (by simp) hne hd, if_pos rfl, if_pos (by omega), hn]

theorem decimalText_of_ParseInt (s : String) (h : (ParseInt s 0).2 = none) :
    IsDecimalText s (ParseInt s 0).1 ∧ FitsInt (ParseInt s 0).1 := by
  cases hs : s.data with
  | nil => simp [ParseInt, hs] at h
  | cons c cs =>
    by_cases hU : (ParseUint (if c = '+' ∨ c = '-' then cs else c :: cs) 0).2 = none
    · obtain ⟨hne, hd⟩ := ParseUint_none _ hU
      have hP := ParseInt_signed s c cs _ hs rfl hne hd
      by_cases hm : c = '-'
      · subst hm
        rw [if_pos rfl] at hP
        have hds : (if '-' = '+' ∨ '-' = '-' then cs else '-' :: cs) = cs := by simp
        rw [hds] at hP hne hd
        by_cases hle : decimalValue 0 cs ≤ 2 ^ 63
        · rw [if_pos hle] at hP
          rw [hP]
          refine ⟨⟨cs, hne, hd, Or.inr (Or.inr ⟨hs, rfl⟩)⟩, ?_, ?_⟩ <;> simp only [] <;> omega
        · rw [if_neg hle] at hP
          rw [hP] at h
          cases h
      · rw [if_neg hm] at hP
        by_cases hlt : decimalValue 0 (if c = '+' ∨ c = '-' then cs else c :: cs) < 2 ^ 63
        · rw [if_pos hlt] at hP
          rw [hP]
          refine ⟨⟨_, hne, hd, ?_⟩, ?_, ?_⟩
          · by_cases hp : c = '+'
            · subst hp
              exact Or.inr (Or.inl ⟨by simpa using hs, rfl⟩)
            · exact Or.inl ⟨by simpa [hp, hm] using hs, rfl⟩
          · simp only []; omega
          · simp only []; omega
        · rw [if_neg hlt] at hP
          rw [hP] at h
          cases h
    · exact absurd h (ParseInt_of_error s c cs hs hU)

theorem GetTimesAnEventHappened_of_none (env : Env) (msg : Message)
    (h : mapGet? msg.Annotations env.AnnotationCount = none) :
    GetTimesAnEventHappened env msg = 1 := by
  simp [GetTimesAnEventHappened, h]

theorem GetTimesAnEventHappened_of_some (env : Env) (msg : Message) (s : String)
    (h : mapGet? msg.Annotations env.AnnotationCount = some s) :
    GetTimesAnEventHappened env msg =
      if (ParseInt s 0).2 = none then (ParseInt s 0).1 else 0 := by
  simp only [GetTimesAnEventHappened, h]
  generalize ParseInt s 0 = r
  obtain ⟨times, err⟩ := r
  cases err <;> simp

/-- C9: `GetTimesAnEventHappened` is total; it is 1 when the annotations have no count key,
it is `n` when the count annotation is the base-10 text of an integer `n` that fits the
platform int, and it is 0 for every other value of the annotation. -/
theorem GetTimesAnEventHappened_spec (env : Env) (msg : Message) :
    (mapGet? msg.Annotations env.AnnotationCount = none →
      GetTimesAnEventHappened env msg = 1) ∧
    (∀ (s : String) (n : Int), mapGet? msg.Annotations env.AnnotationCount = some s →
      IsDecimalText s n → FitsInt n → GetTimesAnEventHappened env msg = n) ∧
    (∀ s : String, mapGet? msg.Annotations env.AnnotationCount = some s →
      (¬ ∃ n : Int, IsDecimalText s n ∧ FitsInt n) → GetTimesAnEventHappened env msg = 0) := by
  refine ⟨GetTimesAnEventHappened_of_none env msg, ?_, ?_⟩
  · intro s n hs hdec hfit
    rw [GetTimesAnEventHappened_of_some env msg s hs, ParseInt_of_decimalText s n hdec hfit]
    simp
  · intro s hs hno
    rw [GetTimesAnEventHappened_of_some env msg s hs]
    by_cases hp : (ParseInt s 0).2 = none
    · exact absurd ⟨_, decimalText_of_ParseInt s hp⟩ hno
    · rw [if_neg hp]

/-- C9 at concrete inputs: no annotation gives 1, the text `+021` gives 21, and the texts
`""`, `12a` and `9223372036854775808` give 0. -/
theorem GetTimesAnEventHappened_spec_witness :
    GetTimesAnEventHappened sampleEnv ⟨"Unhealthy", "probe failed", []⟩ = 1 ∧
    GetTimesAnEventHappened sampleEnv ⟨"Unhealthy", "probe failed", [("count", "+021")]⟩ = 21 ∧
    GetTimesAnEventHappened sampleEnv ⟨"Unhealthy", "probe failed", [("count", "")]⟩ = 0 ∧
    GetTimesAnEventHappened sampleEnv ⟨"Unhealthy", "probe failed", [("count", "12a")]⟩ = 0 ∧
    GetTimesAnEventHappened sampleEnv
      ⟨"Unhealthy", "probe failed", [("count", "9223372036854775808")]⟩ = 0 :=
  ⟨(GetTimesAnEventHappened_spec sampleEnv _).1 rfl,
   (GetTimesAnEventHappened_spec sampleEnv _).2.1 "+021" 21 rfl
     ⟨['0', '2', '1'], by decide, by decide, Or.inr (Or.inl ⟨rfl, by decide⟩)⟩
     ⟨by decide, by decide⟩,
   by decide, by decide, by decide⟩

/-! ## Go maps -/

theorem mapGet?_mapSet_self {V : Type} (m : List (String × V)) (k : String) (v : V) :
    mapGet? (mapSet m k v) k = some v := by
  induction m with
  | nil => simp [mapSet, mapGet?]
  | cons p rest ih =>
    obtain ⟨k', v'⟩ := p
    by_cases h : k' = k
    · simp [mapSet, mapGet?, h]
    · simp [mapSet, mapGet?, h, ih]

theorem mapGet?_mapSet_ne {V : Type} (m : List (String × V)) (k k' : String) (v : V)
    (hne : k ≠ k') : mapGet? (mapSet m k v) k' = mapGet? m k' := by
  induction m with
  | nil => simp [mapSet, mapGet?, hne]
  | cons p rest ih =>
    obtain ⟨k0, v0⟩ := p
    by_cases h : k0 = k
    · subst h
      simp [mapSet, mapGet?, hne]
    · by_cases h' : k0 = k'
      · subst h'
        simp [mapSet, mapGet?, h]
      · simp [mapSet, mapGet?, h, h', ih]

theorem mem_mapSet {V : Type} (m : List (String × V)) (k : String) (v : V) (p : String × V)
    (hp : p ∈ mapSet m k v) : p = (k, v) ∨ p ∈ m := by
  induction m with
  | nil =>
    simp only [mapSet, List.mem_singleton] at hp
    exact Or.inl hp
  | cons q rest ih =>
    obtain ⟨k0, v0⟩ := q
    by_cases h : k0 = k
    · simp only [mapSet, h, if_true, List.mem_cons] at hp
      rcases hp with hp | hp
      · exact Or.inl hp
      · exact Or.inr (List.mem_cons_of_mem _ hp)
    · simp only [mapSet, h, if_false, List.mem_cons] at hp
      rcases hp with hp | hp
      · exact Or.inr (hp ▸ List.mem_cons_self _ _)
      · rcases ih hp with h1 | h1
        · exact Or.inl h1
        · exact Or.inr (List.mem_cons_of_mem _ h1)

theorem mem_mapKeys_mapSet {V : Type} (m : List (String × V)) (k : String) (v : V)
    (x : String) : x ∈ mapKeys (mapSet m k v) ↔ x = k ∨ x ∈ mapKeys m := by
  induction m with
  | nil => simp [mapSet, mapKeys]
  | cons q rest ih =>
    obtain ⟨k0, v0⟩ := q
    by_cases h : k0 = k
    · subst h
      simp [mapSet, mapKeys]
    · simp only [mapKeys] at ih
      simp only [mapSet, h, if_false, mapKeys, List.map_cons, List.mem_cons, ih]
      tauto

theorem mapGet?_eq_none_iff {V : Type} (m : List (String × V)) (k : String) :
    mapGet? m k = none ↔ k ∉ mapKeys m := by
  induction m with
  | nil => simp [mapGet?, mapKeys]
  | cons q rest ih =>
    obtain ⟨k0, v0⟩ := q
    simp only [mapKeys] at ih
    by_cases h : k0 = k
    · simp [mapGet?, mapKeys, h]
    · have h' : ¬ k = k0 := fun e => h e.symm
      simp [mapGet?, mapKeys, h, h', ih]

theorem mem_of_mapGet? {V : Type} (m : List (String × V)) (k : String) (v : V)
    (h : mapGet? m k = some v) : (k, v) ∈ m := by
  induction m with
  | nil => simp [mapGet?] at h
  | cons q rest ih =>
    obtain ⟨k0, v0⟩ := q
    by_cases hk : k0 = k
    · simp only [mapGet?, hk, if_true, Option.some.injEq] at h
      subst hk; subst h
      exact List.mem_cons_self _ _
    · simp only [mapGet?, hk, if_false] at h
      exact List.mem_cons_of_mem _ (ih h)

/-! ## Exemption tests -/

theorem foundOverlap_eq_any (event : Interval) (nuis : List Interval) :
    foundOverlap event nuis = nuis.any (fun nui => strictlyInside event nui.From nui.To) := by
  induction nuis with
  | nil => rfl
  | cons nui rest ih =>
    simp only [foundOverlap, List.any_cons, ih, strictlyInside, Time.Before, Time.After]
    by_cases h : (decide (nui.From.nsec < event.From.nsec) &&
        decide (event.To.nsec < nui.To.nsec)) = true
    · simp [h]
    · simp only [Bool.not_eq_true] at h
      simp [h]

theorem allowedByTimeRanges_eq_any (event : Interval) (ranges : List timeRange) :
    allowedByTimeRanges event ranges =
      ranges.any (fun r => strictlyInside event r.from_ r.to_) := by
  induction ranges with
  | nil => rfl
  | cons r rest ih =>
    simp only [allowedByTimeRanges, List.any_cons, ih, strictlyInside, Time.Before, Time.After]
    by_cases h : (decide (r.from_.nsec < event.From.nsec) &&
        decide (event.To.nsec < r.to_.nsec)) = true
    · simp [h]
    · simp only [Bool.not_eq_true] at h
      simp [h]

theorem foundOverlap_iff (event : Interval) (nuis : List Interval) :
    foundOverlap event nuis = true ↔
      ∃ nui ∈ nuis, nui.From.nsec < event.From.nsec ∧ event.To.nsec < nui.To.nsec := by
  rw [foundOverlap_eq_any, List.any_eq_true]
  simp [strictlyInside]

theorem allowedByTimeRanges_iff (event : Interval) (ranges : List timeRange) :
    allowedByTimeRanges event ranges = true ↔
      ∃ r ∈ ranges, r.from_.nsec < event.From.nsec ∧ event.To.nsec < r.to_.nsec := by
  rw [allowedByTimeRanges_eq_any, List.any_eq_true]
  simp [strictlyInside]

/-! ## The lazily built ranges -/

theorem RangesSettled_init (env : Env) (events : List Interval) :
    RangesSettled env events LoopState.init :=
  Or.inl ⟨rfl, rfl⟩

theorem buildOnce_of_settled (env : Env) (events : List Interval) (st : LoopState)
    (h : RangesSettled env events st) :
    buildOnce env events st =
      { buildTopologyHintAllowedTimeRanges := false,
        topologyHintAllowedTimeRanges := topologyHintAllowedTimeRanges env events,
        displayToCount := st.displayToCount } := by
  obtain ⟨b, rs, d⟩ := st
  rcases h with ⟨hb, hr⟩ | ⟨hb, hr⟩
  · simp only at hb hr
    subst hb; subst hr
    simp [buildOnce, topologyHintAllowedTimeRanges]
  · simp only at hb hr
    subst hb; subst hr
    simp [buildOnce]

theorem loopBody_settled (env : Env) (events nuis : List Interval) (st : LoopState)
    (event : Interval) (h : RangesSettled env events st) :
    RangesSettled env events (loopBody env events nuis st event) ∧
    (loopBody env events nuis st event).displayToCount =
      loopBodyPrecomputed env nuis (topologyHintAllowedTimeRanges env events)
        st.displayToCount event := by
  have hb := buildOnce_of_settled env events st h
  unfold loopBody loopBodyPrecomputed
  by_cases h1 : event.StructuredMessage.Reason = "FailedScheduling" ∧
      foundOverlap event nuis = true
  · rw [if_pos h1, if_pos h1]
    exact ⟨h, rfl⟩
  · rw [if_neg h1, if_neg h1]
    by_cases h2 : event.StructuredMessage.Reason = "TopologyAwareHintsDisabled"
    · rw [if_pos h2]
      simp only [hb]
      by_cases h3 : allowedByTimeRanges event (topologyHintAllowedTimeRanges env events) = true
      · rw [if_pos h3, if_pos ⟨h2, h3⟩]
        exact ⟨Or.inr ⟨rfl, rfl⟩, rfl⟩
      · rw [if_neg h3, if_neg (fun hh => h3 hh.2)]
        exact ⟨Or.inr ⟨rfl, rfl⟩, rfl⟩
    · rw [if_neg h2, if_neg (fun hh => h2 hh.1)]
      refine ⟨?_, rfl⟩
      rcases h with ⟨hb1, hr1⟩ | ⟨hb1, hr1⟩
      · exact Or.inl ⟨hb1, hr1⟩
      · exact Or.inr ⟨hb1, hr1⟩

theorem foldl_loopBody_settled (env : Env) (events nuis : List Interval) (l : List Interval) :
    ∀ st : LoopState, RangesSettled env events st →
      RangesSettled env events (l.foldl (loopBody env events nuis) st) ∧
      (l.foldl (loopBody env events nuis) st).displayToCount =
        l.foldl (loopBodyPrecomputed env nuis (topologyHintAllowedTimeRanges env events))
          st.displayToCount := by
  induction l with
  | nil => intro st h; exact ⟨h, rfl⟩
  | cons e rest ih =>
    intro st h
    obtain ⟨h1, h2⟩ := loopBody_settled env events nuis st e h
    simp only [List.foldl_cons]
    rw [← h2]
    exact ih _ h1

theorem displayToCount_eq_displayToCountPrecomputed (env : Env) (events : List Interval) :
    displayToCount env events = displayToCountPrecomputed env events :=
  (foldl_loopBody_settled env events _ events _ (RangesSettled_init env events)).2

/-- C8: the lazily built topology-hint ranges depend on the whole event list only: the ranges
that any `TopologyAwareHintsDisabled` event is tested against, whatever the events handled
before it, are the ranges of the event list; and the signature map of `testDuplicatedEvents`
is the one of the variant that computes the node-update intervals and the ranges before the
detection loop. -/
theorem displayToCount_eq_precomputed (env : Env) (events : List Interval) :
    (∀ (before : List Interval) (event : Interval) (later : List Interval),
      events = before ++ event :: later →
      (buildOnce env events
        (before.foldl (loopBody env events (nodeUpdateIntervals env events))
          LoopState.init)).topologyHintAllowedTimeRanges =
        topologyHintAllowedTimeRanges env events) ∧
    displayToCount env events = displayToCountPrecomputed env events := by
  constructor
  · intro before event later _
    rw [buildOnce_of_settled env events _
      (foldl_loopBody_settled env events _ before _ (RangesSettled_init env events)).1]
  · exact displayToCount_eq_displayToCountPrecomputed env events

/-! ## Recording one event -/

theorem recordEvent_of_not (env : Env) (d : List (String × Interval)) (e : Interval)
    (h : ¬ (env.DuplicateEventThreshold < GetTimesAnEventHappened env e.StructuredMessage ∧
      env.MatchesAny e.StructuredLocator e.StructuredMessage = false)) :
    recordEvent env d e = d := by
  unfold recordEvent
  by_cases h1 : GetTimesAnEventHappened env e.StructuredMessage > env.DuplicateEventThreshold
  · have h2 : env.MatchesAny e.StructuredLocator e.StructuredMessage = true := by
      cases hm : env.MatchesAny e.StructuredLocator e.StructuredMessage
      · exact absurd ⟨h1, hm⟩ h
      · rfl
    simp only [h1, if_true, h2]
  · simp only [h1, if_false]

theorem recordEvent_of (env : Env) (d : List (String × Interval)) (e : Interval)
    (h1 : env.DuplicateEventThreshold < GetTimesAnEventHappened env e.StructuredMessage)
    (h2 : env.MatchesAny e.StructuredLocator e.StructuredMessage = false) :
    recordEvent env d e =
      match mapGet? d (eventDisplayMessage e) with
      | none => mapSet d (eventDisplayMessage e) e
      | some v =>
        if GetTimesAnEventHappened env v.StructuredMessage <
            GetTimesAnEventHappened env e.StructuredMessage then
          mapSet d (eventDisplayMessage e) e
        else d := by
  unfold recordEvent
  have h1' : GetTimesAnEventHappened env e.StructuredMessage > env.DuplicateEventThreshold := h1
  simp only [h1', if_true, h2, Bool.false_eq_true, if_false]
  cases hg : mapGet? d (eventDisplayMessage e) with
  | none =>
    simp only [mapGet?_mapSet_self, Option.getD_some, gt_iff_lt, lt_self_iff_false, if_false]
  | some v =>
    simp only [hg, Option.getD_some, gt_iff_lt]

theorem mem_recordEvent (env : Env) (d : List (String × Interval)) (e : Interval)
    (p : String × Interval) (hp : p ∈ recordEvent env d e) :
    p ∈ d ∨ (p = (eventDisplayMessage e, e) ∧
      env.DuplicateEventThreshold < GetTimesAnEventHappened env e.StructuredMessage ∧
      env.MatchesAny e.StructuredLocator e.StructuredMessage = false) := by
  by_cases h : env.DuplicateEventThreshold < GetTimesAnEventHappened env e.StructuredMessage ∧
      env.MatchesAny e.StructuredLocator e.StructuredMessage = false
  · rw [recordEvent_of env d e h.1 h.2] at hp
    cases hg : mapGet? d (eventDisplayMessage e) with
    | none =>
      rw [hg] at hp
      rcases mem_mapSet _ _ _ _ hp with h1 | h1
      · exact Or.inr ⟨h1, h⟩
      · exact Or.inl h1
    | some v =>
      rw [hg] at hp
      simp only at hp
      split at hp
      · rcases mem_mapSet _ _ _ _ hp with h1 | h1
        · exact Or.inr ⟨h1, h⟩
        · exact Or.inl h1
      · exact Or.inl hp
  · rw [recordEvent_of_not env d e h] at hp
    exact Or.inl hp

/-! ## The detection loop as a filter -/

theorem isExemptFailedScheduling_iff (env : Env) (events : List Interval) (e : Interval) :
    isExemptFailedScheduling env events e = true ↔
      (e.StructuredMessage.Reason = "FailedScheduling" ∧
        foundOverlap e (nodeUpdateIntervals env events) = true) := by
  simp [isExemptFailedScheduling, foundOverlap_eq_any]

theorem isExemptTopologyHint_iff (env : Env) (events : List Interval) (e : Interval) :
    isExemptTopologyHint env events e = true ↔
      (e.StructuredMessage.Reason = "TopologyAwareHintsDisabled" ∧
        allowedByTimeRanges e (topologyHintAllowedTimeRanges env events) = true) := by
  simp [isExemptTopologyHint, allowedByTimeRanges_eq_any]

theorem isReportable_iff (env : Env) (events : List Interval) (e : Interval) :
    isReportable env events e = true ↔
      (isExemptFailedScheduling env events e = false ∧
       isExemptTopologyHint env events e = false ∧
       env.DuplicateEventThreshold < GetTimesAnEventHappened env e.StructuredMessage ∧
       env.MatchesAny e.StructuredLocator e.StructuredMessage = false) := by
  simp [isReportable, and_assoc]

theorem loopBodyPrecomputed_eq (env : Env) (events : List Interval)
    (d : List (String × Interval)) (e : Interval) :
    loopBodyPrecomputed env (nodeUpdateIntervals env events)
        (topologyHintAllowedTimeRanges env events) d e =
      if isReportable env events e = true then recordEvent env d e else d := by
  unfold loopBodyPrecomputed
  by_cases h1 : e.StructuredMessage.Reason = "FailedScheduling" ∧
      foundOverlap e (nodeUpdateIntervals env events) = true
  · rw [if_pos h1, if_neg]
    rw [isReportable_iff, (isExemptFailedScheduling_iff env events e).2 h1]
    simp
  · rw [if_neg h1]
    have h1' : isExemptFailedScheduling env events e = false :=
      Bool.eq_false_iff.2 (fun hh => h1 ((isExemptFailedScheduling_iff env events e).1 hh))
    by_cases h2 : e.StructuredMessage.Reason = "TopologyAwareHintsDisabled" ∧
        allowedByTimeRanges e (topologyHintAllowedTimeRanges env events) = true
    · rw [if_pos h2, if_neg]
      rw [isReportable_iff, (isExemptTopologyHint_iff env events e).2 h2]
      simp
    · rw [if_neg h2]
      have h2' : isExemptTopologyHint env events e = false :=
        Bool.eq_false_iff.2 (fun hh => h2 ((isExemptTopologyHint_iff env events e).1 hh))
      by_cases h3 : isReportable env events e = true
      · rw [if_pos h3]
      · rw [if_neg h3]
        apply recordEvent_of_not
        intro h4
        apply h3
        rw [isReportable_iff]
        exact ⟨h1', h2', h4⟩

theorem foldl_ite_eq_foldl_filter {α β : Type} (p : α → Bool) (f : β → α → β) (l : List α) :
    ∀ b : β, l.foldl (fun b a => if p a = true then f b a else b) b =
      (l.filter p).foldl f b := by
  induction l with
  | nil => intro b; rfl
  | cons a rest ih =>
    intro b
    by_cases h : p a = true
    · simp only [List.foldl_cons, h, if_true, List.filter_cons_of_pos, ih]
    · simp only [List.foldl_cons, h, if_false, ih]
      simp only [Bool.not_eq_true] at h
      simp [List.filter_cons, h]

theorem displayToCount_eq_filter (env : Env) (events : List Interval) :
    displayToCount env events =
      (events.filter (isReportable env events)).foldl (recordEvent env) [] := by
  rw [displayToCount_eq_displayToCountPrecomputed env events, displayToCountPrecomputed,
    ← foldl_ite_eq_foldl_filter]
  congr 1
  funext d e
  exact loopBodyPrecomputed_eq env events d e

/-! ## The representative of a signature -/

theorem filter_signature_eq_nil (L : List Interval) (k : String)
    (h : ∀ e ∈ L, eventDisplayMessage e ≠ k) :
    L.filter (fun e => decide (eventDisplayMessage e = k)) = [] := by
  rw [List.filter_eq_nil_iff]
  intro e he
  simpa using h e he

theorem foldl_recordEvent_spec (env : Env) (L : List Interval)
    (hL : ∀ e ∈ L, env.DuplicateEventThreshold < GetTimesAnEventHappened env e.StructuredMessage ∧
      env.MatchesAny e.StructuredLocator e.StructuredMessage = false) :
    ∀ k : String,
      (mapGet? (L.foldl (recordEvent env) []) k = none → ∀ e ∈ L, eventDisplayMessage e ≠ k) ∧
      (∀ v, mapGet? (L.foldl (recordEvent env) []) k = some v →
        ∃ pre post, L.filter (fun e => decide (eventDisplayMessage e = k)) = pre ++ v :: post ∧
          (∀ x ∈ pre, GetTimesAnEventHappened env x.StructuredMessage <
            GetTimesAnEventHappened env v.StructuredMessage) ∧
          (∀ x ∈ post, GetTimesAnEventHappened env x.StructuredMessage ≤
            GetTimesAnEventHappened env v.StructuredMessage)) := by
  induction L using List.reverseRecOn with
  | nil =>
    intro k
    exact ⟨fun _ e he => absurd he (List.not_mem_nil e), fun v hv => by simp [mapGet?] at hv⟩
  | append_singleton L e ih =>
    have hL' : ∀ x ∈ L, env.DuplicateEventThreshold <
        GetTimesAnEventHappened env x.StructuredMessage ∧
        env.MatchesAny x.StructuredLocator x.StructuredMessage = false :=
      fun x hx => hL x (List.mem_append_left _ hx)
    have he := hL e (List.mem_append_right _ (List.mem_singleton_self e))
    have ih := ih hL'
    intro k
    rw [List.foldl_append, List.foldl_cons, List.foldl_nil, recordEvent_of env _ e he.1 he.2,
      List.filter_append]
    by_cases hk : eventDisplayMessage e = k
    · -- the new event has the signature `k`
      have hf : [e].filter (fun e => decide (eventDisplayMessage e = k)) = [e] := by
        simp [List.filter_cons, hk]
      rw [hf]
      subst hk
      cases hg : mapGet? (L.foldl (recordEvent env) []) (eventDisplayMessage e) with
      | none =>
        simp only [mapGet?_mapSet_self]
        refine ⟨fun h => Option.noConfusion h, fun v hv => ?_⟩
        simp only [Option.some.injEq] at hv
        subst hv
        refine ⟨[], [], ?_, fun x hx => absurd hx (List.not_mem_nil x),
          fun x hx => absurd hx (List.not_mem_nil x)⟩
        rw [filter_signature_eq_nil L _ ((ih _).1 hg)]
      | some v0 =>
        obtain ⟨pre, post, hpp, hpre, hpost⟩ := (ih _).2 v0 hg
        simp only
        by_cases hlt : GetTimesAnEventHappened env v0.StructuredMessage <
            GetTimesAnEventHappened env e.StructuredMessage
        · rw [if_pos hlt]
          simp only [mapGet?_mapSet_self]
          refine ⟨fun h => Option.noConfusion h, fun v hv => ?_⟩
          simp only [Option.some.injEq] at hv
          subst hv
          refine ⟨pre ++ v0 :: post, [], by rw [hpp], ?_,
            fun x hx => absurd hx (List.not_mem_nil x)⟩
          intro x hx
          rcases List.mem_append.1 hx with h1 | h1
          · exact lt_trans (hpre x h1) hlt
          · rcases List.mem_cons.1 h1 with h2 | h2
            · rw [h2]; exact hlt
            · exact lt_of_le_of_lt (hpost x h2) hlt
        · rw [if_neg hlt, hg]
          refine ⟨fun h => Option.noConfusion h, fun v hv => ?_⟩
          simp only [Option.some.injEq] at hv
          subst hv
          refine ⟨pre, post ++ [e], by rw [hpp]; simp, hpre, ?_⟩
          intro x hx
          rcases List.mem_append.1 hx with h1 | h1
          · exact hpost x h1
          · rw [List.mem_singleton.1 h1]
            exact not_lt.1 hlt
    · -- the new event has another signature
      have hf : [e].filter (fun e => decide (eventDisplayMessage e = k)) = [] := by
        simp [List.filter_cons, hk]
      rw [hf, List.append_nil]
      have hsame : mapGet?
          (match mapGet? (L.foldl (recordEvent env) []) (eventDisplayMessage e) with
            | none => mapSet (L.foldl (recordEvent env) []) (eventDisplayMessage e) e
            | some v =>
              if GetTimesAnEventHappened env v.StructuredMessage <
                  GetTimesAnEventHappened env e.StructuredMessage then
                mapSet (L.foldl (recordEvent env) []) (eventDisplayMessage e) e
              else L.foldl (recordEvent env) []) k =
          mapGet? (L.foldl (recordEvent env) []) k := by
        cases mapGet? (L.foldl (recordEvent env) []) (eventDisplayMessage e) with
        | none => exact mapGet?_mapSet_ne _ _ _ _ hk
        | some v =>
          simp only
          split
          · exact mapGet?_mapSet_ne _ _ _ _ hk
          · rfl
      rw [hsame]
      refine ⟨fun h x hx => ?_, (ih k).2⟩
      rcases List.mem_append.1 hx with h1 | h1
      · exact (ih k).1 h x h1
      · rw [List.mem_singleton.1 h1]
        exact hk

theorem isReportable_iff_explicit (env : Env) (events : List Interval) (e : Interval) :
    isReportable env events e = true ↔
      (¬ (e.StructuredMessage.Reason = "FailedScheduling" ∧
          ∃ nui ∈ nodeUpdateIntervals env events,
            nui.From.nsec < e.From.nsec ∧ e.To.nsec < nui.To.nsec) ∧
       ¬ (e.StructuredMessage.Reason = "TopologyAwareHintsDisabled" ∧
          ∃ r ∈ topologyHintAllowedTimeRanges env events,
            r.from_.nsec < e.From.nsec ∧ e.To.nsec < r.to_.nsec) ∧
       env.DuplicateEventThreshold < GetTimesAnEventHappened env e.StructuredMessage ∧
       env.MatchesAny e.StructuredLocator e.StructuredMessage = false) := by
  rw [isReportable_iff, ← foundOverlap_iff, ← allowedByTimeRanges_iff,
    ← isExemptFailedScheduling_iff, ← isExemptTopologyHint_iff]
  simp

theorem reportable_of_mem_filter (env : Env) (events : List Interval) (e : Interval)
    (he : e ∈ events.filter (isReportable env events)) :
    env.DuplicateEventThreshold < GetTimesAnEventHappened env e.StructuredMessage ∧
      env.MatchesAny e.StructuredLocator e.StructuredMessage = false :=
  ((isReportable_iff env events e).1 (List.mem_filter.1 he).2).2.2

theorem mem_displayToCount (env : Env) (events : List Interval) (p : String × Interval)
    (hp : p ∈ displayToCount env events) :
    p.2 ∈ events ∧ isReportable env events p.2 = true ∧ p.1 = eventDisplayMessage p.2 := by
  rw [displayToCount_eq_filter] at hp
  have key : ∀ (l : List Interval) (d : List (String × Interval)),
      p ∈ l.foldl (recordEvent env) d → p ∈ d ∨ ∃ e ∈ l, p = (eventDisplayMessage e, e) := by
    intro l
    induction l with
    | nil => intro d h; exact Or.inl h
    | cons a rest ih =>
      intro d h
      rcases ih _ h with h1 | ⟨e, he, hpe⟩
      · rcases mem_recordEvent env d a p h1 with h2 | ⟨h2, _⟩
        · exact Or.inl h2
        · exact Or.inr ⟨a, List.mem_cons_self _ _, h2⟩
      · exact Or.inr ⟨e, List.mem_cons_of_mem _ he, hpe⟩
  rcases key _ _ hp with h | ⟨e, he, hpe⟩
  · exact absurd h (List.not_mem_nil p)
  · subst hpe
    exact ⟨(List.mem_filter.1 he).1, (List.mem_filter.1 he).2, rfl⟩

/-- C1: a display signature is a key of `displayToCount` after the detection loop exactly
when it is the signature of an event of the list that (1) is not a `FailedScheduling` event
strictly inside a node-update interval, (2) is not a `TopologyAwareHintsDisabled` event
strictly inside a topology-hint allowed time range, (3) has a repeat count over the
threshold and (4) is not allowed by `MatchesAny`. -/
theorem mem_mapKeys_displayToCount_iff (env : Env) (events : List Interval) (k : String) :
    k ∈ mapKeys (displayToCount env events) ↔
      ∃ e ∈ events,
        ¬ (e.StructuredMessage.Reason = "FailedScheduling" ∧
          ∃ nui ∈ nodeUpdateIntervals env events,
            nui.From.nsec < e.From.nsec ∧ e.To.nsec < nui.To.nsec) ∧
        ¬ (e.StructuredMessage.Reason = "TopologyAwareHintsDisabled" ∧
          ∃ r ∈ topologyHintAllowedTimeRanges env events,
            r.from_.nsec < e.From.nsec ∧ e.To.nsec < r.to_.nsec) ∧
        env.DuplicateEventThreshold < GetTimesAnEventHappened env e.StructuredMessage ∧
        env.MatchesAny e.StructuredLocator e.StructuredMessage = false ∧
        eventDisplayMessage e = k := by
  have hspec := foldl_recordEvent_spec env (events.filter (isReportable env events))
    (reportable_of_mem_filter env events) k
  rw [← displayToCount_eq_filter] at hspec
  constructor
  · intro hk
    cases hg : mapGet? (displayToCount env events) k with
    | none => exact absurd hk ((mapGet?_eq_none_iff _ _).1 hg)
    | some v =>
      obtain ⟨hv, hrep, hsig⟩ := mem_displayToCount env events (k, v) (mem_of_mapGet? _ _ _ hg)
      obtain ⟨h1, h2, h3, h4⟩ := (isReportable_iff_explicit env events v).1 hrep
      exact ⟨v, hv, h1, h2, h3, h4, hsig.symm⟩
  · rintro ⟨e, he, h1, h2, h3, h4, hsig⟩
    by_contra hk
    have hnone := (mapGet?_eq_none_iff _ _).2 hk
    exact hspec.1 hnone e
      (List.mem_filter.2 ⟨he, (isReportable_iff_explicit env events e).2 ⟨h1, h2, h3, h4⟩⟩) hsig

/-- C3: the representative stored under a display signature is the first event, in timeline
order, among the non-exempt, over-threshold, unallowed events with that signature whose
repeat count is the highest: the events before it have a strictly lower count and the events
after it have a count that is not higher. A stored representative is replaced only by an
occurrence whose count is strictly higher. -/
theorem displayToCount_representative (env : Env) (events : List Interval) :
    (∀ (k : String) (v : Interval), mapGet? (displayToCount env events) k = some v →
      ∃ pre post,
        events.filter (fun e => isReportable env events e &&
          decide (eventDisplayMessage e = k)) = pre ++ v :: post ∧
        (∀ x ∈ pre, GetTimesAnEventHappened env x.StructuredMessage <
          GetTimesAnEventHappened env v.StructuredMessage) ∧
        (∀ x ∈ post, GetTimesAnEventHappened env x.StructuredMessage ≤
          GetTimesAnEventHappened env v.StructuredMessage)) ∧
    (∀ (d : List (String × Interval)) (e v : Interval),
      mapGet? d (eventDisplayMessage e) = some v →
      ¬ (GetTimesAnEventHappened env v.StructuredMessage <
        GetTimesAnEventHappened env e.StructuredMessage) →
      recordEvent env d e = d) := by
  constructor
  · intro k v hv
    have hspec := foldl_recordEvent_spec env (events.filter (isReportable env events))
      (reportable_of_mem_filter env events) k
    rw [← displayToCount_eq_filter, List.filter_filter] at hspec
    have hfun : (fun e => isReportable env events e && decide (eventDisplayMessage e = k)) =
        (fun a => decide (eventDisplayMessage a = k) && isReportable env events a) := by
      funext a
      exact Bool.and_comm _ _
    rw [hfun]
    exact hspec.2 v hv
  · intro d e v hg hnot
    by_cases h : env.DuplicateEventThreshold <
        GetTimesAnEventHappened env e.StructuredMessage ∧
        env.MatchesAny e.StructuredLocator e.StructuredMessage = false
    · rw [recordEvent_of env d e h.1 h.2, hg]
      simp only
      rw [if_neg hnot]
    · exact recordEvent_of_not env d e h

/-- C4: a `FailedScheduling` event for which some node-update interval of the list starts
strictly before its `From` and ends strictly after its `To` is skipped by the loop body,
whatever its repeat count and whatever `MatchesAny` returns, and it is never stored in
`displayToCount`. -/
theorem failedScheduling_inside_nodeUpdate_skipped (env : Env) (events : List Interval)
    (event nui : Interval) (hreason : event.StructuredMessage.Reason = "FailedScheduling")
    (hmem : nui ∈ events) (hnui : isNodeUpdateInterval env nui = true)
    (hfrom : nui.From.nsec < event.From.nsec) (hto : event.To.nsec < nui.To.nsec) :
    (∀ st : LoopState,
      loopBody env events (nodeUpdateIntervals env events) st event = st) ∧
    (∀ k : String, (k, event) ∉ displayToCount env events) := by
  have hov : foundOverlap event (nodeUpdateIntervals env events) = true :=
    (foundOverlap_iff _ _).2 ⟨nui, List.mem_filter.2 ⟨hmem, hnui⟩, hfrom, hto⟩
  constructor
  · intro st
    unfold loopBody
    rw [if_pos ⟨hreason, hov⟩]
  · intro k hk
    obtain ⟨_, hrep, _⟩ := mem_displayToCount env events (k, event) hk
    have hex : isExemptFailedScheduling env events event = true :=
      (isExemptFailedScheduling_iff env events event).2 ⟨hreason, hov⟩
    rw [isReportable_iff, hex] at hrep
    exact absurd hrep.1 (by decide)

/-! ## Widening of a topology-hint range -/

theorem scanStep_of_before (env : Env) (r : timeRange) (s : Time × Int) (x : Interval)
    (h : x.From.Before r.from_ = true) : scanStep env r s x = s := by
  simp [scanStep, h]

theorem widenLoop_cons (env : Env) (r : timeRange) (x : Interval) (rest : List Interval)
    (s : Time × Int) :
    widenLoop env r (x :: rest) s.1 s.2 =
      if x.From.Before r.from_ = true then widenLoop env r rest s.1 s.2
      else if x.From.After r.to_ = true ∧ (scanStep env r s x).2 = 0 then
        (if (scanStep env r s x).1.After r.to_ = true then (scanStep env r s x).1 else r.to_)
      else widenLoop env r rest (scanStep env r s x).1 (scanStep env r s x).2 := by
  by_cases hb : x.From.Before r.from_ = true
  · simp only [widenLoop, hb, if_true]
  · simp only [widenLoop, hb, if_false, scanStep, Bool.false_eq_true]
    by_cases hr : isCountedReady env x (countAfterDelete env x s.2) = true
    · simp [hr]
    · simp [hr]

theorem le_widenLoop (env : Env) (r : timeRange) (l : List Interval) :
    ∀ s : Time × Int, r.to_.nsec ≤ (widenLoop env r l s.1 s.2).nsec := by
  induction l with
  | nil => intro s; exact le_refl _
  | cons x rest ih =>
    intro s
    rw [widenLoop_cons]
    split
    · exact ih s
    · split
      · split
        · rename_i h
          simp only [Time.After, decide_eq_true_eq] at h
          exact le_of_lt h
        · exact le_refl _
      · exact ih _

theorem widenLoop_of_no_stop (env : Env) (r : timeRange) (l : List Interval) :
    ∀ s : Time × Int,
      (∀ b x rest, l = b ++ x :: rest →
        ¬ (x.From.Before r.from_ = false ∧ x.From.After r.to_ = true ∧
          ((b ++ [x]).foldl (scanStep env r) s).2 = 0)) →
      widenLoop env r l s.1 s.2 = r.to_ := by
  induction l with
  | nil => intro s _; rfl
  | cons y rest ih =>
    intro s h
    rw [widenLoop_cons]
    by_cases hb : y.From.Before r.from_ = true
    · rw [if_pos hb]
      apply ih
      intro b x rest' hl
      have := h (y :: b) x rest' (by rw [hl]; rfl)
      simpa [List.foldl_cons, scanStep_of_before env r s y hb] using this
    · rw [if_neg hb]
      have h0 := h [] y rest rfl
      have hb' : y.From.Before r.from_ = false := by simpa using hb
      rw [if_neg (fun hh => h0 ⟨hb', hh.1, by simpa using hh.2⟩)]
      apply ih
      intro b x rest' hl
      have := h (y :: b) x rest' (by rw [hl]; rfl)
      simpa [List.foldl_cons] using this

theorem widenLoop_of_stop (env : Env) (r : timeRange) (x : Interval) (later : List Interval)
    (before : List Interval) :
    ∀ s : Time × Int,
      (x.From.Before r.from_ = false ∧ x.From.After r.to_ = true ∧
        ((before ++ [x]).foldl (scanStep env r) s).2 = 0) →
      (∀ b y rest, before = b ++ y :: rest →
        ¬ (y.From.Before r.from_ = false ∧ y.From.After r.to_ = true ∧
          ((b ++ [y]).foldl (scanStep env r) s).2 = 0)) →
      widenLoop env r (before ++ x :: later) s.1 s.2 =
        if ((before ++ [x]).foldl (scanStep env r) s).1.After r.to_ = true then
          ((before ++ [x]).foldl (scanStep env r) s).1
        else r.to_ := by
  induction before with
  | nil =>
    intro s hstop _
    simp only [List.nil_append, List.foldl_cons, List.foldl_nil] at hstop ⊢
    rw [widenLoop_cons, if_neg (by simp [hstop.1]), if_pos ⟨hstop.2.1, hstop.2.2⟩]
  | cons y before ih =>
    intro s hstop hno
    rw [List.cons_append, widenLoop_cons]
    by_cases hb : y.From.Before r.from_ = true
    · rw [if_pos hb]
      have hs := scanStep_of_before env r s y hb
      simp only [List.cons_append, List.foldl_cons, hs] at hstop ⊢
      apply ih s hstop
      intro b z rest' hl
      have := hno (y :: b) z rest' (by rw [hl]; rfl)
      simpa [List.foldl_cons, hs] using this
    · rw [if_neg hb]
      have h0 := hno [] y before rfl
      have hb' : y.From.Before r.from_ = false := by simpa using hb
      rw [if_neg (fun hh => h0 ⟨hb', hh.1, by simpa using hh.2⟩)]
      simp only [List.cons_append, List.foldl_cons] at hstop ⊢
      apply ih _ hstop
      intro b z rest' hl
      have := hno (y :: b) z rest' (by rw [hl]; rfl)
      simpa [List.foldl_cons] using this

/-- C1 at a concrete list: the signature of the events over the threshold is a key. -/
theorem mem_mapKeys_displayToCount_iff_witness :
    "ns/default pod/web - reason/BackOff repeated" ∈
      mapKeys (displayToCount sampleEnv sampleRepeatedEvents) :=
  (mem_mapKeys_displayToCount_iff sampleEnv sampleRepeatedEvents _).2
    ⟨sampleKubeEvent "ns/default pod/web" "default" "BackOff" "25" 1 2, by decide, by decide,
      by decide, by decide, by decide, by decide⟩

/-- C3 at a concrete list: of the counts 25, 27, 27 the first event with 27 is stored. -/
theorem displayToCount_representative_witness :
    ∃ pre post,
      sampleRepeatedEvents.filter (fun e => isReportable sampleEnv sampleRepeatedEvents e &&
        decide (eventDisplayMessage e = "ns/default pod/web - reason/BackOff repeated")) =
        pre ++ sampleKubeEvent "ns/default pod/web" "default" "BackOff" "27" 3 4 :: post ∧
      (∀ x ∈ pre, GetTimesAnEventHappened sampleEnv x.StructuredMessage <
        GetTimesAnEventHappened sampleEnv
          (sampleKubeEvent "ns/default pod/web" "default" "BackOff" "27" 3 4).StructuredMessage) ∧
      (∀ x ∈ post, GetTimesAnEventHappened sampleEnv x.StructuredMessage ≤
        GetTimesAnEventHappened sampleEnv
          (sampleKubeEvent "ns/default pod/web" "default" "BackOff" "27" 3 4).StructuredMessage) :=
  (displayToCount_representative sampleEnv sampleRepeatedEvents).1
    "ns/default pod/web - reason/BackOff repeated"
    (sampleKubeEvent "ns/default pod/web" "default" "BackOff" "27" 3 4) (by decide)

/-- C4 at a concrete list: the event inside the update of the master node is not stored. -/
theorem failedScheduling_inside_nodeUpdate_skipped_witness :
    (∀ st : LoopState,
      loopBody sampleEnv sampleUpdateEvents (nodeUpdateIntervals sampleEnv sampleUpdateEvents) st
        (sampleKubeEvent "ns/openshift-etcd pod/etcd-1" "openshift-etcd" "FailedScheduling"
          "30" 1 9) = st) ∧
    (∀ k : String,
      (k, sampleKubeEvent "ns/openshift-etcd pod/etcd-1" "openshift-etcd" "FailedScheduling"
        "30" 1 9) ∉ displayToCount sampleEnv sampleUpdateEvents) :=
  failedScheduling_inside_nodeUpdate_skipped sampleEnv sampleUpdateEvents
    (sampleKubeEvent "ns/openshift-etcd pod/etcd-1" "openshift-etcd" "FailedScheduling" "30" 1 9)
    (sampleNodeUpdate 0 10) rfl (by decide) (by decide) (by decide) (by decide)

/-- C5, refuted as stated: the window of the node update (seconds 0 to 10) starts at the
`From` of the `FailedScheduling` event and ends at its `To`, so the inclusive test holds, and
yet the event is not exempted: it is stored in `displayToCount`. -/
theorem inclusive_containment_not_exempt :
    sampleKubeEvent "ns/openshift-etcd pod/etcd-2" "openshift-etcd" "FailedScheduling" "21" 0 10
      ∈ sampleUpdateEvents ∧
    sampleNodeUpdate 0 10 ∈ nodeUpdateIntervals sampleEnv sampleUpdateEvents ∧
    (sampleNodeUpdate 0 10).From.nsec ≤
      (sampleKubeEvent "ns/openshift-etcd pod/etcd-2" "openshift-etcd" "FailedScheduling"
        "21" 0 10).From.nsec ∧
    (sampleKubeEvent "ns/openshift-etcd pod/etcd-2" "openshift-etcd" "FailedScheduling"
        "21" 0 10).To.nsec ≤ (sampleNodeUpdate 0 10).To.nsec ∧
    foundOverlap
      (sampleKubeEvent "ns/openshift-etcd pod/etcd-2" "openshift-etcd" "FailedScheduling"
        "21" 0 10) (nodeUpdateIntervals sampleEnv sampleUpdateEvents) = false ∧
    displayToCount sampleEnv sampleUpdateEvents =
      [("ns/openshift-etcd pod/etcd-2 - reason/FailedScheduling repeated",
        sampleKubeEvent "ns/openshift-etcd pod/etcd-2" "openshift-etcd" "FailedScheduling"
          "21" 0 10)] := by
  decide

/-- C5, amended: the containment test is strict at both ends. The loop over the node-update
intervals finds an overlap exactly when some interval starts strictly before the event's
`From` and ends strictly after its `To`, and the loop over the topology-hint ranges allows
an event by the same strict test; a window that starts at the event's `From`, or ends at its
`To`, does not contain it. A `FailedScheduling` event is skipped by the loop body when an
overlap is found and goes on to the count test otherwise; a `TopologyAwareHintsDisabled`
event is skipped when a range allows it and goes on to the count test otherwise. -/
theorem exemption_containment_strict (env : Env) (events nuis : List Interval)
    (ranges : List timeRange) (st : LoopState) (event : Interval) :
    (foundOverlap event nuis = true ↔
      ∃ nui ∈ nuis, nui.From.nsec < event.From.nsec ∧ event.To.nsec < nui.To.nsec) ∧
    (allowedByTimeRanges event ranges = true ↔
      ∃ r ∈ ranges, r.from_.nsec < event.From.nsec ∧ event.To.nsec < r.to_.nsec) ∧
    (∀ nui : Interval, nui.From.nsec = event.From.nsec ∨ nui.To.nsec = event.To.nsec →
      foundOverlap event [nui] = false) ∧
    (∀ r : timeRange, r.from_.nsec = event.From.nsec ∨ r.to_.nsec = event.To.nsec →
      allowedByTimeRanges event [r] = false) ∧
    (event.StructuredMessage.Reason = "FailedScheduling" →
      loopBody env events nuis st event =
        if foundOverlap event nuis = true then st
        else { st with displayToCount := recordEvent env st.displayToCount event }) ∧
    (event.StructuredMessage.Reason = "TopologyAwareHintsDisabled" →
      loopBody env events nuis st event =
        if allowedByTimeRanges event
            (buildOnce env events st).topologyHintAllowedTimeRanges = true then
          buildOnce env events st
        else { buildOnce env events st with
          displayToCount := recordEvent env (buildOnce env events st).displayToCount event }) := by
  refine ⟨foundOverlap_iff event nuis, allowedByTimeRanges_iff event ranges, ?_, ?_, ?_, ?_⟩
  · intro nui h
    rw [Bool.eq_false_iff]
    intro hh
    obtain ⟨x, hx, h1, h2⟩ := (foundOverlap_iff event [nui]).1 hh
    rw [List.mem_singleton.1 hx] at h1 h2
    omega
  · intro r h
    rw [Bool.eq_false_iff]
    intro hh
    obtain ⟨x, hx, h1, h2⟩ := (allowedByTimeRanges_iff event [r]).1 hh
    rw [List.mem_singleton.1 hx] at h1 h2
    omega
  · intro hr
    unfold loopBody
    have hne : ¬ event.StructuredMessage.Reason = "TopologyAwareHintsDisabled" := by
      rw [hr]; decide
    by_cases h : foundOverlap event nuis = true
    · rw [if_pos ⟨hr, h⟩, if_pos h]
    · rw [if_neg (fun hh => h hh.2), if_neg hne, if_neg h]
  · intro hr
    unfold loopBody
    have hne : ¬ event.StructuredMessage.Reason = "FailedScheduling" := by
      rw [hr]; decide
    rw [if_neg (fun hh => hne hh.1), if_pos hr]

/-- C6, refuted as stated: for the test window from second 0 to second 5 and the two
replacements of `sampleDnsEvents`, a scan of the whole list ends with the counter at zero and
the last ready event at second 8, later than the end, so the claimed widened end is second 8;
the range that the code builds ends at second 6. -/
theorem widened_end_is_not_full_scan :
    sampleTaintEvents.filter (isTaintManagerTestInterval sampleEnv) =
      [sampleTaintManagerTest 0 5] ∧
    sampleTaintEvents.filter (isDnsUpdateInterval sampleEnv) = sampleDnsEvents ∧
    scanState sampleEnv ⟨atSecond 0, atSecond 5⟩ sampleDnsEvents = (atSecond 8, 0) ∧
    widenedEndOfFullScan sampleEnv ⟨atSecond 0, atSecond 5⟩ sampleDnsEvents = atSecond 8 ∧
    topologyHintAllowedTimeRanges sampleEnv sampleTaintEvents =
      [⟨atSecond 0, atSecond 6⟩] := by
  decide

/-- C6, amended: the scan of the pod-lifecycle events stops at the first scanned event that
starts after the base end while the counter is zero. When there is such an event, the
widened end is the last ready time seen up to and including it (the zero time when no ready
event was counted) if that time is later than the base end, and the base end otherwise; when
there is no such event, the widened end is the base end. -/
theorem widenLoop_spec (env : Env) (r : timeRange) (dnsUpdateIntervals : List Interval) :
    (∀ (before : List Interval) (interval : Interval) (later : List Interval),
      dnsUpdateIntervals = before ++ interval :: later →
      stopsAt env r before interval →
      (∀ b x rest, before = b ++ x :: rest → ¬ stopsAt env r b x) →
      (expandTimeRange env dnsUpdateIntervals r).to_ =
        if (scanState env r (before ++ [interval])).1.After r.to_ = true then
          (scanState env r (before ++ [interval])).1
        else r.to_) ∧
    ((∀ b x rest, dnsUpdateIntervals = b ++ x :: rest → ¬ stopsAt env r b x) →
      (expandTimeRange env dnsUpdateIntervals r).to_ = r.to_) := by
  constructor
  · intro before interval later hl hstop hno
    subst hl
    exact widenLoop_of_stop env r interval later before (Time.zero, 0) hstop hno
  · intro hno
    exact widenLoop_of_no_stop env r dnsUpdateIntervals (Time.zero, 0) hno

/-- C6, amended, at a concrete list: the scan stops at the ready event of second 6, and the
range from second 0 to second 5 is widened to second 6. -/
theorem widenLoop_spec_witness :
    (expandTimeRange sampleEnv sampleDnsEvents ⟨atSecond 0, atSecond 5⟩).to_ =
      if (scanState sampleEnv ⟨atSecond 0, atSecond 5⟩
          ([sampleDnsEvent "Pod" "GracefulDelete" "dns-default-a" "" 1] ++
            [sampleDnsEvent "Container" "Ready" "dns-default-b" "dns" 6])).1.After
          (atSecond 5) = true then
        (scanState sampleEnv ⟨atSecond 0, atSecond 5⟩
          ([sampleDnsEvent "Pod" "GracefulDelete" "dns-default-a" "" 1] ++
            [sampleDnsEvent "Container" "Ready" "dns-default-b" "dns" 6])).1
      else atSecond 5 :=
  (widenLoop_spec sampleEnv ⟨atSecond 0, atSecond 5⟩ sampleDnsEvents).1
    [sampleDnsEvent "Pod" "GracefulDelete" "dns-default-a" "" 1]
    (sampleDnsEvent "Container" "Ready" "dns-default-b" "dns" 6)
    [sampleDnsEvent "Pod" "GracefulDelete" "dns-default-b" "" 7,
     sampleDnsEvent "Container" "Ready" "dns-default-c" "dns" 8]
    rfl
    ⟨by decide, by decide, by decide⟩
    (by
      intro b x rest h
      cases b with
      | nil =>
        simp only [List.nil_append, List.cons.injEq] at h
        obtain ⟨hx, _⟩ := h
        subst hx
        rintro ⟨_, h2, _⟩
        exact absurd h2 (by decide)
      | cons y b =>
        simp only [List.cons_append, List.cons.injEq] at h
        exact absurd h.2 (by simp))

/-! ## Growth of the topology-hint ranges -/

theorem forall₂_expandTimeRange (env : Env) (dns : List Interval) (tests : List Interval) :
    List.Forall₂
      (fun (test : Interval) (r : timeRange) =>
        r.from_ = test.From ∧ test.To.nsec ≤ r.to_.nsec)
      tests
      ((tests.map (fun test => ({ from_ := test.From, to_ := test.To } : timeRange))).map
        (expandTimeRange env dns)) := by
  induction tests with
  | nil => exact List.Forall₂.nil
  | cons t rest ih =>
    refine List.Forall₂.cons ⟨rfl, ?_⟩ ih
    exact le_widenLoop env ⟨t.From, t.To⟩ dns (Time.zero, 0)

/-- C7: the topology-hint allowed time ranges correspond, one to one and in order, to the
`NoExecuteTaintManager` test intervals of the list; each range starts at the `From` of its
test interval and ends at or after its `To`. The widening step itself keeps the start of
any range and never moves its end back. -/
theorem topologyHintAllowedTimeRanges_grow (env : Env) (events : List Interval) :
    List.Forall₂
      (fun (test : Interval) (r : timeRange) =>
        r.from_ = test.From ∧ test.To.nsec ≤ r.to_.nsec)
      (events.filter (isTaintManagerTestInterval env))
      (topologyHintAllowedTimeRanges env events) ∧
    (∀ (dnsUpdateIntervals : List Interval) (r : timeRange),
      (expandTimeRange env dnsUpdateIntervals r).from_ = r.from_ ∧
      r.to_.nsec ≤ (expandTimeRange env dnsUpdateIntervals r).to_.nsec) := by
  constructor
  · unfold topologyHintAllowedTimeRanges builtTopologyHintAllowedTimeRanges
    simp only [List.nil_append]
    exact forall₂_expandTimeRange env _ _
  · intro dns r
    exact ⟨rfl, le_widenLoop env r dns (Time.zero, 0)⟩

/-! ## Namespace buckets -/

theorem mapSet_mapSet {V : Type} (m : List (String × V)) (k : String) (a b : V) :
    mapSet (mapSet m k a) k b = mapSet m k b := by
  induction m with
  | nil => simp [mapSet]
  | cons q rest ih =>
    obtain ⟨k0, v0⟩ := q
    by_cases h : k0 = k
    · simp [mapSet, h]
    · simp [mapSet, h, ih]

theorem nsResultsBody_eq (env : Env) (flakeOnly : Bool) (acc : List (String × eventResult))
    (p : String × Interval) :
    nsResultsBody env flakeOnly acc p =
      mapSet acc (bucketNamespace env p.2)
        (if flakeOnly = true then
          { (mapGet? acc (bucketNamespace env p.2)).getD ⟨[], []⟩ with
            flakes := ((mapGet? acc (bucketNamespace env p.2)).getD ⟨[], []⟩).flakes ++
              [renderedLine env flakeOnly p.1 p.2] }
        else
          { (mapGet? acc (bucketNamespace env p.2)).getD ⟨[], []⟩ with
            failures := ((mapGet? acc (bucketNamespace env p.2)).getD ⟨[], []⟩).failures ++
              [renderedLine env flakeOnly p.1 p.2] }) := by
  unfold nsResultsBody renderedLine
  cases hg : mapGet? acc (bucketNamespace env p.2) with
  | none =>
    cases flakeOnly <;>
      simp [hg, mapGet?_mapSet_self, mapSet_mapSet]
  | some b =>
    cases flakeOnly <;> simp [hg]

theorem mem_lines_nsResultsBody (env : Env) (flakeOnly : Bool)
    (acc : List (String × eventResult)) (p : String × Interval) (q : String × eventResult)
    (hq : q ∈ nsResultsBody env flakeOnly acc p) (line : String)
    (hline : line ∈ q.2.failures ++ q.2.flakes) :
    (∃ q' ∈ acc, q'.1 = q.1 ∧ line ∈ q'.2.failures ++ q'.2.flakes) ∨
    (q.1 = bucketNamespace env p.2 ∧ line = renderedLine env flakeOnly p.1 p.2) := by
  rw [nsResultsBody_eq] at hq
  rcases mem_mapSet _ _ _ _ hq with h | h
  · subst h
    cases hg : mapGet? acc (bucketNamespace env p.2) with
    | none =>
      right
      cases flakeOnly <;> simp_all
    | some b =>
      have hb := mem_of_mapGet? _ _ _ hg
      cases flakeOnly
      · simp only [hg, Option.getD_some, Bool.false_eq_true, if_false, List.mem_append,
          List.mem_singleton] at hline
        rcases hline with (h1 | h1) | h1
        · exact Or.inl ⟨_, hb, rfl, List.mem_append_left _ h1⟩
        · exact Or.inr ⟨rfl, h1⟩
        · exact Or.inl ⟨_, hb, rfl, List.mem_append_right _ h1⟩
      · simp only [hg, Option.getD_some, if_true, List.mem_append,
          List.mem_singleton] at hline
        rcases hline with h1 | h1 | h1
        · exact Or.inl ⟨_, hb, rfl, List.mem_append_left _ h1⟩
        · exact Or.inl ⟨_, hb, rfl, List.mem_append_right _ h1⟩
        · exact Or.inr ⟨rfl, h1⟩
  · exact Or.inl ⟨q, h, rfl, hline⟩

theorem mem_lines_foldl_nsResultsBody (env : Env) (flakeOnly : Bool)
    (l : List (String × Interval)) :
    ∀ acc : List (String × eventResult), ∀ q ∈ l.foldl (nsResultsBody env flakeOnly) acc,
      ∀ line ∈ q.2.failures ++ q.2.flakes,
        (∃ q' ∈ acc, q'.1 = q.1 ∧ line ∈ q'.2.failures ++ q'.2.flakes) ∨
        (∃ p ∈ l, q.1 = bucketNamespace env p.2 ∧
          line = renderedLine env flakeOnly p.1 p.2) := by
  induction l with
  | nil => intro acc q hq line hline; exact Or.inl ⟨q, hq, rfl, hline⟩
  | cons p rest ih =>
    intro acc q hq line hline
    rcases ih _ q hq line hline with ⟨q', hq', hk, hl⟩ | ⟨p', hp', h⟩
    · rcases mem_lines_nsResultsBody env flakeOnly acc p q' hq' line hl with
        ⟨q'', h1, h2, h3⟩ | ⟨h1, h2⟩
      · exact Or.inl ⟨q'', h1, h2.trans hk, h3⟩
      · exact Or.inr ⟨p, List.mem_cons_self _ _, hk ▸ h1, h2⟩
    · exact Or.inr ⟨p', List.mem_cons_of_mem _ hp', h⟩

theorem mem_mapKeys_foldl_nsResultsBody (env : Env) (flakeOnly : Bool)
    (l : List (String × Interval)) :
    ∀ acc : List (String × eventResult),
      ∀ key ∈ mapKeys (l.foldl (nsResultsBody env flakeOnly) acc),
        key ∈ mapKeys acc ∨ ∃ p ∈ l, key = bucketNamespace env p.2 := by
  induction l with
  | nil => intro acc key hk; exact Or.inl hk
  | cons p rest ih =>
    intro acc key hk
    rcases ih _ key hk with h | ⟨p', hp', h⟩
    · rw [nsResultsBody_eq, mem_mapKeys_mapSet] at h
      rcases h with h | h
      · exact Or.inr ⟨p, List.mem_cons_self _ _, h⟩
      · exact Or.inl h
    · exact Or.inr ⟨p', List.mem_cons_of_mem _ hp', h⟩

theorem line_kept_nsResultsBody (env : Env) (flakeOnly : Bool)
    (acc : List (String × eventResult)) (p : String × Interval) (key line : String)
    (h : ∃ b, mapGet? acc key = some b ∧ line ∈ b.failures ++ b.flakes) :
    ∃ b, mapGet? (nsResultsBody env flakeOnly acc p) key = some b ∧
      line ∈ b.failures ++ b.flakes := by
  obtain ⟨b, hb, hl⟩ := h
  rw [nsResultsBody_eq]
  by_cases hk : bucketNamespace env p.2 = key
  · subst hk
    rw [mapGet?_mapSet_self, hb]
    refine ⟨_, rfl, ?_⟩
    cases flakeOnly
    · simp only [Option.getD_some, Bool.false_eq_true, if_false, List.mem_append,
        List.mem_singleton]
      rcases List.mem_append.1 hl with h1 | h1
      · exact Or.inl (Or.inl h1)
      · exact Or.inr h1
    · simp only [Option.getD_some, if_true, List.mem_append, List.mem_singleton]
      rcases List.mem_append.1 hl with h1 | h1
      · exact Or.inl h1
      · exact Or.inr (Or.inl h1)
  · rw [mapGet?_mapSet_ne _ _ _ _ hk]
    exact ⟨b, hb, hl⟩

theorem line_added_nsResultsBody (env : Env) (flakeOnly : Bool)
    (acc : List (String × eventResult)) (p : String × Interval) :
    ∃ b, mapGet? (nsResultsBody env flakeOnly acc p) (bucketNamespace env p.2) = some b ∧
      renderedLine env flakeOnly p.1 p.2 ∈ b.failures ++ b.flakes := by
  rw [nsResultsBody_eq, mapGet?_mapSet_self]
  refine ⟨_, rfl, ?_⟩
  cases flakeOnly <;> simp

theorem line_kept_foldl_nsResultsBody (env : Env) (flakeOnly : Bool)
    (l : List (String × Interval)) (key line : String) :
    ∀ acc : List (String × eventResult),
      (∃ b, mapGet? acc key = some b ∧ line ∈ b.failures ++ b.flakes) →
      ∃ b, mapGet? (l.foldl (nsResultsBody env flakeOnly) acc) key = some b ∧
        line ∈ b.failures ++ b.flakes := by
  induction l with
  | nil => intro acc h; exact h
  | cons p rest ih =>
    intro acc h
    exact ih _ (line_kept_nsResultsBody env flakeOnly acc p key line h)

theorem line_of_mem_foldl_nsResultsBody (env : Env) (flakeOnly : Bool)
    (l : List (String × Interval)) :
    ∀ acc : List (String × eventResult), ∀ p ∈ l,
      ∃ b, mapGet? (l.foldl (nsResultsBody env flakeOnly) acc) (bucketNamespace env p.2) =
          some b ∧
        renderedLine env flakeOnly p.1 p.2 ∈ b.failures ++ b.flakes := by
  induction l with
  | nil => intro acc p hp; exact absurd hp (List.not_mem_nil p)
  | cons a rest ih =>
    intro acc p hp
    rcases List.mem_cons.1 hp with h | h
    · subst h
      exact line_kept_foldl_nsResultsBody env flakeOnly rest _ _ _
        (line_added_nsResultsBody env flakeOnly acc p)
    · exact ih _ p h

/-- C2: every representative stored in `displayToCount` has a repeat count over the
threshold, so an event whose count is not over the threshold is never stored; and every line
of every failures or flakes list built from the map is the text
`event happened N times, something is wrong: ...` (with the marker of the mode appended to
its first line) of an event whose count `N` is over the threshold. -/
theorem under_threshold_never_reported (env : Env) (events : List Interval) :
    (∀ p ∈ displayToCount env events,
      env.DuplicateEventThreshold < GetTimesAnEventHappened env p.2.StructuredMessage) ∧
    (∀ e : Interval,
      GetTimesAnEventHappened env e.StructuredMessage ≤ env.DuplicateEventThreshold →
      ∀ k : String, (k, e) ∉ displayToCount env events) ∧
    (∀ flakeOnly : Bool, ∀ q ∈ buildNsResults env flakeOnly (displayToCount env events),
      ∀ line ∈ q.2.failures ++ q.2.flakes,
        ∃ (v : Interval) (text marker : String),
          env.DuplicateEventThreshold < GetTimesAnEventHappened env v.StructuredMessage ∧
          line = appendToFirstLine
            ("event happened " ++ sprintfD (GetTimesAnEventHappened env v.StructuredMessage) ++
              " times, something is wrong: " ++ text) marker) := by
  have h1 : ∀ p ∈ displayToCount env events,
      env.DuplicateEventThreshold < GetTimesAnEventHappened env p.2.StructuredMessage := by
    intro p hp
    obtain ⟨_, hrep, _⟩ := mem_displayToCount env events p hp
    exact ((isReportable_iff env events p.2).1 hrep).2.2.1
  refine ⟨h1, ?_, ?_⟩
  · intro e he k hk
    exact absurd (h1 (k, e) hk) (not_lt.2 he)
  · intro flakeOnly q hq line hline
    rcases mem_lines_foldl_nsResultsBody env flakeOnly _ [] q hq line hline with
      ⟨q', hq', _⟩ | ⟨p, hp, _, hl⟩
    · exact absurd hq' (List.not_mem_nil q')
    · refine ⟨p.2, p.1 ++ " From: " ++ p.2.From.Format ++ " To: " ++ p.2.To.Format,
        if flakeOnly = true then " result=allow " else " result=reject ", h1 p hp, ?_⟩
      rw [hl]
      cases flakeOnly <;> rfl

/-- C2 at a concrete list: the event with the count 20 is not stored. -/
theorem under_threshold_never_reported_witness :
    ∀ k : String,
      (k, sampleKubeEvent "ns/default pod/web" "default" "BackOff" "20" 7 8) ∉
        displayToCount sampleEnv sampleRepeatedEvents :=
  (under_threshold_never_reported sampleEnv sampleRepeatedEvents).2.1 _ (by decide)

/-- C10: every key of `nsResults` is a known namespace or `""`; the line of a representative
whose locator namespace is known is in the bucket of that namespace, and the line of a
representative whose namespace is missing or unknown is in the bucket `""`. -/
theorem nsResults_keys_known (env : Env) (flakeOnly : Bool)
    (signatures : List (String × Interval)) :
    (∀ key ∈ mapKeys (buildNsResults env flakeOnly signatures),
      key ∈ env.KnownNamespaces ∨ key = "") ∧
    (∀ p ∈ signatures,
      mapIndex p.2.StructuredLocator.Keys env.LocatorNamespaceKey ∈ env.KnownNamespaces →
      ∃ b, mapGet? (buildNsResults env flakeOnly signatures)
          (mapIndex p.2.StructuredLocator.Keys env.LocatorNamespaceKey) = some b ∧
        renderedLine env flakeOnly p.1 p.2 ∈ b.failures ++ b.flakes) ∧
    (∀ p ∈ signatures,
      mapIndex p.2.StructuredLocator.Keys env.LocatorNamespaceKey ∉ env.KnownNamespaces →
      ∃ b, mapGet? (buildNsResults env flakeOnly signatures) "" = some b ∧
        renderedLine env flakeOnly p.1 p.2 ∈ b.failures ++ b.flakes) := by
  refine ⟨?_, ?_, ?_⟩
  · intro key hkey
    rcases mem_mapKeys_foldl_nsResultsBody env flakeOnly signatures [] key hkey with
      h | ⟨p, _, hp⟩
    · exact absurd h (List.not_mem_nil key)
    · rw [hp]
      unfold bucketNamespace
      simp only
      split
      · rename_i h
        exact Or.inl h
      · exact Or.inr rfl
  · intro p hp hknown
    have h := line_of_mem_foldl_nsResultsBody env flakeOnly signatures [] p hp
    have hb : bucketNamespace env p.2 =
        mapIndex p.2.StructuredLocator.Keys env.LocatorNamespaceKey := by
      unfold bucketNamespace
      simp only
      rw [if_pos hknown]
    rw [hb] at h
    exact h
  · intro p hp hunknown
    have h := line_of_mem_foldl_nsResultsBody env flakeOnly signatures [] p hp
    have hb : bucketNamespace env p.2 = "" := by
      unfold bucketNamespace
      simp only
      rw [if_neg hunknown]
    rw [hb] at h
    exact h

/-- C10 at a concrete map: a representative of the known namespace `default` and one of the
unknown namespace `e2e-test-1` give the buckets `default` and `""`. -/
theorem nsResults_keys_known_witness :
    mapKeys (buildNsResults sampleEnv false
      [("a", sampleKubeEvent "ns/default pod/web" "default" "BackOff" "27" 3 4),
       ("b", sampleKubeEvent "ns/e2e-test-1 pod/web" "e2e-test-1" "BackOff" "30" 3 4)]) =
      ["default", ""] ∧
    ∃ b, mapGet? (buildNsResults sampleEnv false
        [("a", sampleKubeEvent "ns/default pod/web" "default" "BackOff" "27" 3 4),
         ("b", sampleKubeEvent "ns/e2e-test-1 pod/web" "e2e-test-1" "BackOff" "30" 3 4)]) "" =
        some b ∧
      renderedLine sampleEnv false "b"
        (sampleKubeEvent "ns/e2e-test-1 pod/web" "e2e-test-1" "BackOff" "30" 3 4) ∈
          b.failures ++ b.flakes :=
  ⟨by decide,
    (nsResults_keys_known sampleEnv false
      [("a", sampleKubeEvent "ns/default pod/web" "default" "BackOff" "27" 3 4),
       ("b", sampleKubeEvent "ns/e2e-test-1 pod/web" "e2e-test-1" "BackOff" "30" 3 4)]).2.2
      ("b", sampleKubeEvent "ns/e2e-test-1 pod/web" "e2e-test-1" "BackOff" "30" 3 4)
      (by decide) (by decide)⟩

/-- C8 at a concrete list: the lazily built ranges and the signature map agree with the
variant that computes them before the loop. -/
theorem displayToCount_eq_precomputed_witness :
    (buildOnce sampleEnv sampleTaintEvents
      ([sampleTaintManagerTest 0 5].foldl
        (loopBody sampleEnv sampleTaintEvents (nodeUpdateIntervals sampleEnv sampleTaintEvents))
        LoopState.init)).topologyHintAllowedTimeRanges =
      topologyHintAllowedTimeRanges sampleEnv sampleTaintEvents :=
  (displayToCount_eq_precomputed sampleEnv sampleTaintEvents).1 [sampleTaintManagerTest 0 5]
    (sampleDnsEvent "Pod" "GracefulDelete" "dns-default-a" "" 1)
    [sampleDnsEvent "Container" "Ready" "dns-default-b" "dns" 6,
     sampleDnsEvent "Pod" "GracefulDelete" "dns-default-b" "" 7,
     sampleDnsEvent "Container" "Ready" "dns-default-c" "dns" 8] rfl

/-! ## The failure text -/

theorem ne_empty_of_append_right (a b : String) (hb : b ≠ "") : a ++ b ≠ "" := by
  intro h
  apply hb
  have hd : (a ++ b).data = [] := by rw [h]
  rw [String.data_append, List.append_eq_nil] at hd
  exact String.ext hd.2

theorem generateFailureOutput_cases (failures flakes : List String) :
    (failures = [] → flakes = [] → generateFailureOutput failures flakes = "") ∧
    (failures ≠ [] → flakes = [] →
      generateFailureOutput failures flakes =
        sprintfD failures.length ++ " events happened too frequently\n\n" ++
          stringsJoinNL failures) ∧
    (failures = [] → flakes ≠ [] →
      generateFailureOutput failures flakes =
        sprintfD flakes.length ++ " events with known BZs\n\n" ++ stringsJoinNL flakes) ∧
    (failures ≠ [] → flakes ≠ [] →
      generateFailureOutput failures flakes =
        sprintfD failures.length ++ " events happened too frequently\n\n" ++
          stringsJoinNL failures ++ "\n\n" ++
          (sprintfD flakes.length ++ " events with known BZs\n\n" ++ stringsJoinNL flakes)) := by
  refine ⟨?_, ?_, ?_, ?_⟩
  · intro h1 h2
    subst h1; subst h2
    rfl
  · intro h1 h2
    subst h2
    have hl : failures.length > 0 := List.length_pos.2 h1
    simp [generateFailureOutput, hl]
  · intro h1 h2
    subst h1
    have hl : flakes.length > 0 := List.length_pos.2 h2
    simp [generateFailureOutput, hl]
  · intro h1 h2
    have hl1 : failures.length > 0 := List.length_pos.2 h1
    have hl2 : flakes.length > 0 := List.length_pos.2 h2
    have hne : sprintfD failures.length ++ " events happened too frequently\n\n" ++
        stringsJoinNL failures ≠ "" := by
      rw [String.append_assoc]
      apply ne_empty_of_append_right
      intro h
      have hd : (" events happened too frequently\n\n" ++ stringsJoinNL failures).data = [] := by
        rw [h]
      rw [String.data_append] at hd
      simp at hd
    simp only [generateFailureOutput, hl1, hl2, if_true, hne, ne_eq, not_false_eq_true]

theorem joinLines_cons (x : List Char) (xs : List (List Char)) :
    joinLines (x :: xs) = x ++ xs.flatMap (fun a => '\n' :: a) := by
  induction xs generalizing x with
  | nil => simp [joinLines]
  | cons y ys ih =>
    rw [joinLines, ih y, List.flatMap_cons]
    simp

theorem intercalate_go_data (l : List String) :
    ∀ acc : String, (String.intercalate.go acc "\n" l).data =
      acc.data ++ l.flatMap (fun a => '\n' :: a.data) := by
  induction l with
  | nil => intro acc; simp [String.intercalate.go]
  | cons a rest ih =>
    intro acc
    rw [String.intercalate.go, ih, List.flatMap_cons, String.data_append, String.data_append]
    have h : ("\n" : String).data = ['\n'] := rfl
    rw [h]
    simp

theorem stringsJoinNL_eq_intercalate (elems : List String) :
    stringsJoinNL elems = String.intercalate "\n" elems := by
  cases elems with
  | nil => rfl
  | cons a rest =>
    apply String.ext
    rw [String.intercalate, intercalate_go_data]
    simp only [stringsJoinNL, List.map_cons, joinLines_cons]
    congr 1
    induction rest with
    | nil => rfl
    | cons b bs ih => simp [List.flatMap_cons, ih]

theorem sprintfD_natCast (n : Nat) : sprintfD (n : Int) = Nat.repr n := rfl

/-- C14: `generateFailureOutput` returns the empty string when both lists are empty; the
failures block (the number of failures in decimal, ` events happened too frequently`, an
empty line, the failures joined by line breaks) when only failures is non-empty; the flakes
block (the number of flakes in decimal, ` events with known BZs`, an empty line, the flakes
joined by line breaks) when only flakes is non-empty; and the failures block, an empty line
and the flakes block when both are non-empty. The number is the text of `Nat.repr` and the
join is `String.intercalate` of the library. -/
theorem generateFailureOutput_spec (failures flakes : List String) :
    (failures = [] → flakes = [] → generateFailureOutput failures flakes = "") ∧
    (failures ≠ [] → flakes = [] →
      generateFailureOutput failures flakes =
        Nat.repr failures.length ++ " events happened too frequently\n\n" ++
          String.intercalate "\n" failures) ∧
    (failures = [] → flakes ≠ [] →
      generateFailureOutput failures flakes =
        Nat.repr flakes.length ++ " events with known BZs\n\n" ++
          String.intercalate "\n" flakes) ∧
    (failures ≠ [] → flakes ≠ [] →
      generateFailureOutput failures flakes =
        Nat.repr failures.length ++ " events happened too frequently\n\n" ++
          String.intercalate "\n" failures ++ "\n\n" ++
          (Nat.repr flakes.length ++ " events with known BZs\n\n" ++
            String.intercalate "\n" flakes)) := by
  have h := generateFailureOutput_cases failures flakes
  simp only [stringsJoinNL_eq_intercalate, sprintfD_natCast] at h
  exact h

/-- C14 at concrete lists: two failures and one flake give the text
`2 events happened too frequently`, an empty line, `a`, `b`, an empty line,
`1 events with known BZs`, an empty line and `c`. -/
theorem generateFailureOutput_spec_witness :
    generateFailureOutput ["a", "b"] ["c"] =
      "2 events happened too frequently\n\na\nb\n\n1 events with known BZs\n\nc" :=
  ((generateFailureOutput_spec ["a", "b"] ["c"]).2.2.2 (by decide) (by decide)).trans
    (by decide)

/-! ## Verdicts of the e2e namespaces -/

theorem generateFailureOutput_flakes_only (flakes : List String) (h : flakes ≠ []) :
    generateFailureOutput [] flakes =
      sprintfD flakes.length ++ " events with known BZs\n\n" ++ stringsJoinNL flakes := by
  have hl : flakes.length > 0 := List.length_pos.2 h
  simp [generateFailureOutput, hl]

theorem generateJUnitTestCasesE2ENamespaces_of_none (testName : String)
    (nsResults : List (String × eventResult)) (h : mapGet? nsResults "" = none) :
    generateJUnitTestCasesE2ENamespaces testName nsResults = [⟨testName, none⟩] := by
  simp [generateJUnitTestCasesE2ENamespaces, h]

theorem generateJUnitTestCasesE2ENamespaces_of_some (testName : String)
    (nsResults : List (String × eventResult)) (result : eventResult)
    (h : mapGet? nsResults "" = some result) :
    generateJUnitTestCasesE2ENamespaces testName nsResults =
      if result.failures ≠ [] then
        [⟨testName, some ⟨generateFailureOutput result.failures result.flakes⟩⟩]
      else if result.flakes ≠ [] then
        [⟨testName, some ⟨generateFailureOutput result.failures result.flakes⟩⟩,
          ⟨testName, none⟩]
      else [⟨testName, none⟩] := by
  obtain ⟨failures, flakes⟩ := result
  cases failures with
  | nil =>
    cases flakes with
    | nil => simp [generateJUnitTestCasesE2ENamespaces, h]
    | cons a l => simp [generateJUnitTestCasesE2ENamespaces, h]
  | cons a l => simp [generateJUnitTestCasesE2ENamespaces, h]

/-- C17: all the verdicts of `generateJUnitTestCasesE2ENamespaces` are named `testName`.
There is exactly one, carrying `generateFailureOutput`, when the bucket `""` has a failure;
there are exactly two, the first carrying the flakes text and the second a pass without
failure output, when the bucket has flakes and no failure; there is exactly one bare pass
when the bucket is absent or has neither failures nor flakes. The result is never empty. -/
theorem generateJUnitTestCasesE2ENamespaces_spec (testName : String)
    (nsResults : List (String × eventResult)) :
    (∀ result, mapGet? nsResults "" = some result → result.failures ≠ [] →
      generateJUnitTestCasesE2ENamespaces testName nsResults =
        [⟨testName, some ⟨generateFailureOutput result.failures result.flakes⟩⟩]) ∧
    (∀ result, mapGet? nsResults "" = some result → result.failures = [] →
      result.flakes ≠ [] →
      generateJUnitTestCasesE2ENamespaces testName nsResults =
        [⟨testName, some ⟨sprintfD result.flakes.length ++ " events with known BZs\n\n" ++
            stringsJoinNL result.flakes⟩⟩,
          ⟨testName, none⟩]) ∧
    (∀ result, mapGet? nsResults "" = some result → result.failures = [] →
      result.flakes = [] →
      generateJUnitTestCasesE2ENamespaces testName nsResults = [⟨testName, none⟩]) ∧
    (mapGet? nsResults "" = none →
      generateJUnitTestCasesE2ENamespaces testName nsResults = [⟨testName, none⟩]) ∧
    generateJUnitTestCasesE2ENamespaces testName nsResults ≠ [] ∧
    (∀ t ∈ generateJUnitTestCasesE2ENamespaces testName nsResults, t.Name = testName) := by
  refine ⟨?_, ?_, ?_, ?_, ?_, ?_⟩
  · intro result h hf
    rw [generateJUnitTestCasesE2ENamespaces_of_some testName nsResults result h, if_pos hf]
  · intro result h hf hk
    rw [generateJUnitTestCasesE2ENamespaces_of_some testName nsResults result h,
      if_neg (not_not.2 hf), if_pos hk, hf, generateFailureOutput_flakes_only _ hk]
  · intro result h hf hk
    rw [generateJUnitTestCasesE2ENamespaces_of_some testName nsResults result h,
      if_neg (not_not.2 hf), if_neg (not_not.2 hk)]
  · exact generateJUnitTestCasesE2ENamespaces_of_none testName nsResults
  · cases h : mapGet? nsResults "" with
    | none =>
      rw [generateJUnitTestCasesE2ENamespaces_of_none testName nsResults h]
      exact List.cons_ne_nil _ _
    | some result =>
      rw [generateJUnitTestCasesE2ENamespaces_of_some testName nsResults result h]
      split
      · exact List.cons_ne_nil _ _
      · split <;> exact List.cons_ne_nil _ _
  · intro t ht
    cases h : mapGet? nsResults "" with
    | none =>
      rw [generateJUnitTestCasesE2ENamespaces_of_none testName nsResults h] at ht
      simp only [List.mem_singleton] at ht
      rw [ht]
    | some result =>
      rw [generateJUnitTestCasesE2ENamespaces_of_some testName nsResults result h] at ht
      split at ht
      · simp only [List.mem_singleton] at ht
        rw [ht]
      · split at ht
        · simp only [List.mem_cons, List.mem_singleton, List.not_mem_nil, or_false] at ht
          rcases ht with ht | ht <;> rw [ht]
        · simp only [List.mem_singleton] at ht
          rw [ht]

/-- C17 at a concrete map: a bucket `""` with one flake and no failure gives two verdicts. -/
theorem generateJUnitTestCasesE2ENamespaces_spec_witness :
    generateJUnitTestCasesE2ENamespaces "T" [("", ⟨[], ["x"]⟩)] =
      [⟨"T", some ⟨sprintfD (["x"] : List String).length ++ " events with known BZs\n\n" ++
          stringsJoinNL ["x"]⟩⟩,
        ⟨"T", none⟩] :=
  (generateJUnitTestCasesE2ENamespaces_spec "T" [("", ⟨[], ["x"]⟩)]).2.1 ⟨[], ["x"]⟩ rfl rfl
    (by decide)

/-- C20: the verdicts of `generateJUnitTestCasesE2ENamespaces` depend on the entry `""` of
`nsResults` only: two maps that agree on the key `""` give equal verdicts, and a map without
the key `""`, whatever it holds under other keys, gives the single bare pass verdict. -/
theorem generateJUnitTestCasesE2ENamespaces_depends_on_empty_key (testName : String) :
    (∀ nsResults₁ nsResults₂ : List (String × eventResult),
      mapGet? nsResults₁ "" = mapGet? nsResults₂ "" →
      generateJUnitTestCasesE2ENamespaces testName nsResults₁ =
        generateJUnitTestCasesE2ENamespaces testName nsResults₂) ∧
    (∀ nsResults : List (String × eventResult), (∀ q ∈ nsResults, q.1 ≠ "") →
      generateJUnitTestCasesE2ENamespaces testName nsResults = [⟨testName, none⟩]) := by
  constructor
  · intro r1 r2 h
    unfold generateJUnitTestCasesE2ENamespaces
    rw [h]
  · intro r h
    apply generateJUnitTestCasesE2ENamespaces_of_none
    rw [mapGet?_eq_none_iff]
    intro hk
    obtain ⟨q, hq, hq1⟩ := List.mem_map.1 hk
    exact h q hq hq1

/-- C20 at a concrete map: failures under the key `openshift-etcd` only. -/
theorem generateJUnitTestCasesE2ENamespaces_depends_on_empty_key_witness :
    generateJUnitTestCasesE2ENamespaces "T" [("openshift-etcd", ⟨["x", "y"], []⟩)] =
      [⟨"T", none⟩] :=
  (generateJUnitTestCasesE2ENamespaces_depends_on_empty_key "T").2
    [("openshift-etcd", ⟨["x", "y"], []⟩)] (by decide)

/-! ## Verdicts of the core namespaces -/

theorem coreNamespaceBody_eq (testName : String) (nsResults : List (String × eventResult))
    (tests : List JUnitTestCase) (namespace_ : String) :
    coreNamespaceBody testName nsResults tests namespace_ =
      tests ++ coreNamespaceVerdicts testName nsResults namespace_ := by
  unfold coreNamespaceBody coreNamespaceVerdicts
  cases mapGet? nsResults namespace_ with
  | none => rfl
  | some result =>
    simp only
    split <;> simp

theorem foldl_coreNamespaceBody (testName : String) (nsResults : List (String × eventResult))
    (l : List String) :
    ∀ tests : List JUnitTestCase,
      l.foldl (coreNamespaceBody testName nsResults) tests =
        tests ++ l.flatMap (coreNamespaceVerdicts testName nsResults) := by
  induction l with
  | nil => intro tests; simp
  | cons a rest ih =>
    intro tests
    rw [List.foldl_cons, ih, coreNamespaceBody_eq, List.flatMap_cons, List.append_assoc]

theorem generateJUnitTestCasesCoreNamespaces_eq (env : Env) (testName : String)
    (nsResults : List (String × eventResult)) :
    generateJUnitTestCasesCoreNamespaces env testName nsResults =
      (getNamespacesForJUnits env).flatMap (coreNamespaceVerdicts testName nsResults) := by
  unfold generateJUnitTestCasesCoreNamespaces
  rw [foldl_coreNamespaceBody, List.nil_append]

theorem name_of_mem_coreNamespaceVerdicts (testName : String)
    (nsResults : List (String × eventResult)) (namespace_ : String) (t : JUnitTestCase)
    (ht : t ∈ coreNamespaceVerdicts testName nsResults namespace_) :
    t.Name = getJUnitName testName namespace_ := by
  unfold coreNamespaceVerdicts at ht
  cases h : mapGet? nsResults namespace_ with
  | none =>
    rw [h] at ht
    simp only [List.mem_singleton] at ht
    rw [ht]
  | some result =>
    rw [h] at ht
    simp only [List.mem_cons] at ht
    rcases ht with ht | ht
    · rw [ht]
    · split at ht
      · simp only [List.mem_singleton] at ht
        rw [ht]
      · exact absurd ht (List.not_mem_nil t)

theorem getJUnitName_of_ne (testName namespace_ : String) (h : namespace_ ≠ "") :
    getJUnitName testName namespace_ = testName ++ " for ns/" ++ namespace_ := by
  simp [getJUnitName, h]

theorem getJUnitName_empty (testName : String) : getJUnitName testName "" = testName := by
  simp [getJUnitName]

theorem getJUnitName_injective (testName a b : String)
    (h : getJUnitName testName a = getJUnitName testName b) : a = b := by
  have key : ∀ c : String, c ≠ "" → testName ≠ testName ++ " for ns/" ++ c := by
    intro c _ hc
    have hd := congrArg String.data hc
    rw [String.append_assoc, String.data_append, String.data_append] at hd
    have := List.self_eq_append_right.1 hd
    simp at this
  by_cases ha : a = ""
  · by_cases hb : b = ""
    · rw [ha, hb]
    · rw [ha, getJUnitName_empty, getJUnitName_of_ne _ _ hb] at h
      exact absurd h (key b hb)
  · by_cases hb : b = ""
    · rw [hb, getJUnitName_empty, getJUnitName_of_ne _ _ ha] at h
      exact absurd h.symm (key a ha)
    · rw [getJUnitName_of_ne _ _ ha, getJUnitName_of_ne _ _ hb] at h
      have hd := congrArg String.data h
      simp only [String.data_append] at hd
      exact String.ext (List.append_cancel_left hd)

theorem nodup_getNamespacesForJUnits (env : Env) (h : env.KnownNamespaces.Nodup) :
    (getNamespacesForJUnits env).Nodup := by
  unfold getNamespacesForJUnits
  split
  · exact h
  · rename_i hne
    rw [List.nodup_append]
    refine ⟨h, List.nodup_singleton _, ?_⟩
    intro a ha hb
    rw [List.mem_singleton] at hb
    exact hne (hb ▸ ha)

theorem mem_getNamespacesForJUnits (env : Env) (namespace_ : String) :
    namespace_ ∈ getNamespacesForJUnits env ↔
      namespace_ ∈ env.KnownNamespaces ∨ namespace_ = "" := by
  unfold getNamespacesForJUnits
  split
  · rename_i h
    constructor
    · exact Or.inl
    · rintro (h1 | h1)
      · exact h1
      · exact h1 ▸ h
  · simp

theorem filter_name_flatMap_coreNamespaceVerdicts (testName : String)
    (nsResults : List (String × eventResult)) (namespace_ : String) (l : List String) :
    l.Nodup → namespace_ ∈ l →
      (l.flatMap (coreNamespaceVerdicts testName nsResults)).filter
          (fun t => decide (t.Name = getJUnitName testName namespace_)) =
        coreNamespaceVerdicts testName nsResults namespace_ := by
  have hother : ∀ l : List String, namespace_ ∉ l →
      (l.flatMap (coreNamespaceVerdicts testName nsResults)).filter
          (fun t => decide (t.Name = getJUnitName testName namespace_)) = [] := by
    intro l hl
    rw [List.filter_eq_nil_iff]
    intro t ht
    obtain ⟨a, ha, hta⟩ := List.mem_flatMap.1 ht
    rw [name_of_mem_coreNamespaceVerdicts _ _ _ _ hta]
    simp only [decide_eq_true_eq]
    intro hh
    exact hl (getJUnitName_injective _ _ _ hh ▸ ha)
  induction l with
  | nil => intro _ h; exact absurd h (List.not_mem_nil _)
  | cons a rest ih =>
    intro hnd hmem
    rw [List.flatMap_cons, List.filter_append]
    rw [List.nodup_cons] at hnd
    by_cases ha : a = namespace_
    · subst ha
      rw [hother rest hnd.1, List.append_nil, List.filter_eq_self]
      intro t ht
      simp [name_of_mem_coreNamespaceVerdicts _ _ _ _ ht]
    · have hmem' : namespace_ ∈ rest := by
        rcases List.mem_cons.1 hmem with h | h
        · exact absurd h.symm ha
        · exact h
      rw [ih hnd.2 hmem']
      have : (coreNamespaceVerdicts testName nsResults a).filter
          (fun t => decide (t.Name = getJUnitName testName namespace_)) = [] := by
        rw [List.filter_eq_nil_iff]
        intro t ht
        rw [name_of_mem_coreNamespaceVerdicts _ _ _ _ ht]
        simp only [decide_eq_true_eq]
        intro hh
        exact ha (getJUnitName_injective _ _ _ hh)
      rw [this, List.nil_append]

/-- C15: the known namespaces being a set, for every known namespace (other than `""`)
without an entry in `nsResults` the output of `generateJUnitTestCasesCoreNamespaces` has
exactly one verdict of the name `testName ++ " for ns/" ++ namespace`, and it has no failure
output; when the key `""` has no entry the output has exactly one verdict of the name
`testName`, a bare pass. -/
theorem coreNamespaces_verdict_without_entry (env : Env) (testName : String)
    (nsResults : List (String × eventResult)) (hset : env.KnownNamespaces.Nodup) :
    (∀ namespace_ ∈ env.KnownNamespaces, namespace_ ≠ "" →
      mapGet? nsResults namespace_ = none →
      (generateJUnitTestCasesCoreNamespaces env testName nsResults).filter
          (fun t => decide (t.Name = testName ++ " for ns/" ++ namespace_)) =
        [⟨testName ++ " for ns/" ++ namespace_, none⟩]) ∧
    (mapGet? nsResults "" = none →
      (generateJUnitTestCasesCoreNamespaces env testName nsResults).filter
          (fun t => decide (t.Name = testName)) = [⟨testName, none⟩]) := by
  have hnd := nodup_getNamespacesForJUnits env hset
  constructor
  · intro ns hns hne hnone
    have h := filter_name_flatMap_coreNamespaceVerdicts testName nsResults ns _ hnd
      ((mem_getNamespacesForJUnits env ns).2 (Or.inl hns))
    rw [← generateJUnitTestCasesCoreNamespaces_eq, getJUnitName_of_ne _ _ hne] at h
    rw [h]
    unfold coreNamespaceVerdicts
    rw [hnone, getJUnitName_of_ne _ _ hne]
  · intro hnone
    have h := filter_name_flatMap_coreNamespaceVerdicts testName nsResults "" _ hnd
      ((mem_getNamespacesForJUnits env "").2 (Or.inr rfl))
    rw [← generateJUnitTestCasesCoreNamespaces_eq, getJUnitName_empty] at h
    rw [h]
    unfold coreNamespaceVerdicts
    rw [hnone, getJUnitName_empty]

/-- C15 at a concrete map: the known namespace `openshift-dns` has no entry. -/
theorem coreNamespaces_verdict_without_entry_witness :
    (generateJUnitTestCasesCoreNamespaces sampleEnv "T" [("default", ⟨["x"], []⟩)]).filter
        (fun t => decide (t.Name = "T" ++ " for ns/" ++ "openshift-dns")) =
      [⟨"T" ++ " for ns/" ++ "openshift-dns", none⟩] :=
  (coreNamespaces_verdict_without_entry sampleEnv "T" [("default", ⟨["x"], []⟩)]
    (by decide)).1 "openshift-dns" (by decide) (by decide) rfl

/-- C16: the known namespaces being a set, for every namespace that is known or `""` and has
an entry in `nsResults`, the verdicts of its name in the output of
`generateJUnitTestCasesCoreNamespaces` are one verdict whose failure output is
`generateFailureOutput failures flakes`, followed by one pass verdict without failure output
exactly when the entry has no failure and at least one flake. The output has one verdict for
each namespace and one more for each namespace whose entry has flakes only. -/
theorem coreNamespaces_verdicts_with_entry (env : Env) (testName : String)
    (nsResults : List (String × eventResult)) (hset : env.KnownNamespaces.Nodup) :
    (∀ (namespace_ : String) (result : eventResult),
      namespace_ ∈ env.KnownNamespaces ∨ namespace_ = "" →
      mapGet? nsResults namespace_ = some result →
      (generateJUnitTestCasesCoreNamespaces env testName nsResults).filter
          (fun t => decide (t.Name = getJUnitName testName namespace_)) =
        ⟨getJUnitName testName namespace_,
          some ⟨generateFailureOutput result.failures result.flakes⟩⟩ ::
          (if result.failures = [] ∧ result.flakes ≠ [] then
            [⟨getJUnitName testName namespace_, none⟩]
          else [])) ∧
    (generateJUnitTestCasesCoreNamespaces env testName nsResults).length =
      (getNamespacesForJUnits env).length +
        ((getNamespacesForJUnits env).filter (fun namespace_ =>
          match mapGet? nsResults namespace_ with
          | some result => decide (result.failures = [] ∧ result.flakes ≠ [])
          | none => false)).length := by
  have hnd := nodup_getNamespacesForJUnits env hset
  constructor
  · intro ns result hns hsome
    have h := filter_name_flatMap_coreNamespaceVerdicts testName nsResults ns _ hnd
      ((mem_getNamespacesForJUnits env ns).2 hns)
    rw [← generateJUnitTestCasesCoreNamespaces_eq] at h
    rw [h]
    unfold coreNamespaceVerdicts
    rw [hsome]
    simp only [List.length_eq_zero, gt_iff_lt, List.length_pos, ne_eq]
  · rw [generateJUnitTestCasesCoreNamespaces_eq]
    generalize getNamespacesForJUnits env = l
    induction l with
    | nil => rfl
    | cons a rest ih =>
      rw [List.flatMap_cons, List.length_append, ih, List.filter_cons, List.length_cons]
      unfold coreNamespaceVerdicts
      cases h : mapGet? nsResults a with
      | none =>
        simp only [List.length_singleton, Bool.false_eq_true, if_false]
        omega
      | some result =>
        simp only [List.length_eq_zero, gt_iff_lt, List.length_pos, ne_eq, decide_eq_true_eq]
        by_cases hc : result.failures = [] ∧ ¬ result.flakes = []
        · simp only [hc, not_false_eq_true, and_self, if_true, List.length_cons,
            List.length_nil]
          omega
        · simp only [hc, if_false, List.length_cons, List.length_nil]
          omega

/-- C16 at a concrete map: the known namespace `default` has one flake and no failure. -/
theorem coreNamespaces_verdicts_with_entry_witness :
    (generateJUnitTestCasesCoreNamespaces sampleEnv "T" [("default", ⟨[], ["x"]⟩)]).filter
        (fun t => decide (t.Name = getJUnitName "T" "default")) =
      ⟨getJUnitName "T" "default", some ⟨generateFailureOutput [] ["x"]⟩⟩ ::
        (if ([] : List String) = [] ∧ ["x"] ≠ [] then [⟨getJUnitName "T" "default", none⟩]
        else []) :=
  (coreNamespaces_verdicts_with_entry sampleEnv "T" [("default", ⟨[], ["x"]⟩)]
    (by decide)).1 "default" ⟨[], ["x"]⟩ (Or.inl (by decide)) rfl

/-! ## The first line of a text -/

theorem joinLines_cons_cons (c : Char) (l : List Char) (ls : List (List Char)) :
    joinLines ((c :: l) :: ls) = c :: joinLines (l :: ls) := by
  cases ls with
  | nil => rfl
  | cons l' ls' => rfl

theorem splitLines_spec (cs : List Char) :
    ∃ first others rest, splitLines cs = first :: others ∧ '\n' ∉ first ∧
      cs = first ++ rest ∧ (rest = [] ∨ ∃ r, rest = '\n' :: r) ∧
      ∀ add : List Char, joinLines ((first ++ add) :: others) = first ++ add ++ rest := by
  induction cs with
  | nil =>
    refine ⟨[], [], [], rfl, List.not_mem_nil _, rfl, Or.inl rfl, ?_⟩
    intro add
    simp [joinLines]
  | cons c cs ih =>
    obtain ⟨first, others, rest, hsplit, hno, hcs, hrest, hjoin⟩ := ih
    by_cases hc : c = '\n'
    · subst hc
      refine ⟨[], first :: others, '\n' :: cs, ?_, List.not_mem_nil _, rfl,
        Or.inr ⟨cs, rfl⟩, ?_⟩
      · simp [splitLines, hsplit]
      · intro add
        have h0 := hjoin []
        simp only [List.append_nil] at h0
        simp only [List.nil_append, joinLines, h0, ← hcs]
    · refine ⟨c :: first, others, rest, ?_, ?_, ?_, hrest, ?_⟩
      · simp [splitLines, hc, hsplit]
      · intro hmem
        rcases List.mem_cons.1 hmem with h | h
        · exact hc h.symm
        · exact hno h
      · rw [List.cons_append, ← hcs]
      · intro add
        rw [List.cons_append, joinLines_cons_cons, hjoin add]
        simp

theorem appendToFirstLine_data (s add : String) :
    ∃ first rest, s.data = first ++ rest ∧ '\n' ∉ first ∧
      (rest = [] ∨ ∃ r, rest = '\n' :: r) ∧
      (appendToFirstLine s add).data = first ++ add.data ++ rest := by
  obtain ⟨first, others, rest, hsplit, hno, hcs, hrest, hjoin⟩ := splitLines_spec s.data
  refine ⟨first, rest, hcs, hno, hrest, ?_⟩
  unfold appendToFirstLine
  rw [hsplit]
  exact hjoin add.data

theorem appendToFirstLine_of_no_newline (s add : String) (h : '\n' ∉ s.data) :
    appendToFirstLine s add = s ++ add := by
  obtain ⟨first, rest, hcs, _, hrest, hdata⟩ := appendToFirstLine_data s add
  have hr : rest = [] := by
    rcases hrest with hr | ⟨r, hr⟩
    · exact hr
    · exfalso
      apply h
      rw [hcs, hr]
      simp
  apply String.ext
  rw [hdata, String.data_append, hcs, hr]
  simp

/-! ## Keys of a Go map are distinct -/

theorem nodup_mapKeys_mapSet {V : Type} (m : List (String × V)) (k : String) (v : V)
    (h : (mapKeys m).Nodup) : (mapKeys (mapSet m k v)).Nodup := by
  induction m with
  | nil => simp [mapSet, mapKeys]
  | cons q rest ih =>
    obtain ⟨k0, v0⟩ := q
    simp only [mapKeys, List.map_cons, List.nodup_cons] at h
    by_cases hk : k0 = k
    · subst hk
      simp only [mapSet, if_true, mapKeys, List.map_cons, List.nodup_cons]
      exact h
    · simp only [mapSet, hk, if_false, mapKeys, List.map_cons, List.nodup_cons]
      refine ⟨?_, ih h.2⟩
      intro hmem
      have := (mem_mapKeys_mapSet rest k v k0).1 hmem
      rcases this with h1 | h1
      · exact hk h1
      · exact h.1 h1

theorem mapGet?_of_mem {V : Type} (m : List (String × V)) (k : String) (v : V)
    (hnd : (mapKeys m).Nodup) (h : (k, v) ∈ m) : mapGet? m k = some v := by
  induction m with
  | nil => exact absurd h (List.not_mem_nil _)
  | cons q rest ih =>
    obtain ⟨k0, v0⟩ := q
    simp only [mapKeys, List.map_cons, List.nodup_cons] at hnd
    rcases List.mem_cons.1 h with h1 | h1
    · simp only [Prod.mk.injEq] at h1
      simp [mapGet?, h1.1, h1.2]
    · have hne : k0 ≠ k := by
        intro hk
        apply hnd.1
        rw [hk]
        exact List.mem_map.2 ⟨(k, v), h1, rfl⟩
      simp only [mapGet?, hne, if_false]
      exact ih hnd.2 h1

theorem nodup_mapKeys_buildNsResults (env : Env) (flakeOnly : Bool)
    (signatures : List (String × Interval)) :
    (mapKeys (buildNsResults env flakeOnly signatures)).Nodup := by
  have key : ∀ (l : List (String × Interval)) (acc : List (String × eventResult)),
      (mapKeys acc).Nodup → (mapKeys (l.foldl (nsResultsBody env flakeOnly) acc)).Nodup := by
    intro l
    induction l with
    | nil => intro acc h; exact h
    | cons p rest ih =>
      intro acc h
      apply ih
      rw [nsResultsBody_eq]
      exact nodup_mapKeys_mapSet _ _ _ h
  exact key signatures [] List.nodup_nil

/-! ## The content of a bucket -/

theorem bucketLines_append_singleton (env : Env) (flakeOnly : Bool)
    (signatures : List (String × Interval)) (p : String × Interval) (key : String) :
    bucketLines env flakeOnly (signatures ++ [p]) key =
      bucketLines env flakeOnly signatures key ++
        (if bucketNamespace env p.2 = key then [renderedLine env flakeOnly p.1 p.2] else []) := by
  unfold bucketLines
  rw [List.filter_append, List.map_append]
  by_cases h : bucketNamespace env p.2 = key
  · simp [List.filter_cons, h]
  · simp [List.filter_cons, h]

theorem mapGet?_buildNsResults (env : Env) (flakeOnly : Bool)
    (signatures : List (String × Interval)) (key : String) :
    mapGet? (buildNsResults env flakeOnly signatures) key =
      if bucketLines env flakeOnly signatures key = [] then none
      else some (if flakeOnly = true then ⟨[], bucketLines env flakeOnly signatures key⟩
        else ⟨bucketLines env flakeOnly signatures key, []⟩) := by
  induction signatures using List.reverseRecOn with
  | nil => rfl
  | append_singleton d p ih =>
    unfold buildNsResults at ih ⊢
    rw [List.foldl_append, List.foldl_cons, List.foldl_nil, nsResultsBody_eq,
      bucketLines_append_singleton]
    by_cases hk : bucketNamespace env p.2 = key
    · subst hk
      rw [mapGet?_mapSet_self, ih, if_pos rfl]
      by_cases hl : bucketLines env flakeOnly d (bucketNamespace env p.2) = []
      · rw [hl]
        cases flakeOnly <;> simp
      · rw [if_neg hl]
        cases flakeOnly <;> simp
    · rw [mapGet?_mapSet_ne _ _ _ _ hk, ih, if_neg hk, List.append_nil]

theorem bucket_of_mem_buildNsResults (env : Env) (flakeOnly : Bool)
    (signatures : List (String × Interval)) (q : String × eventResult)
    (hq : q ∈ buildNsResults env flakeOnly signatures) :
    bucketLines env flakeOnly signatures q.1 ≠ [] ∧
    q.2 = (if flakeOnly = true then ⟨[], bucketLines env flakeOnly signatures q.1⟩
      else ⟨bucketLines env flakeOnly signatures q.1, []⟩) := by
  have h := mapGet?_of_mem _ q.1 q.2 (nodup_mapKeys_buildNsResults env flakeOnly signatures) hq
  rw [mapGet?_buildNsResults] at h
  by_cases hl : bucketLines env flakeOnly signatures q.1 = []
  · rw [if_pos hl] at h
    cases h
  · rw [if_neg hl] at h
    exact ⟨hl, (Option.some.inj h).symm⟩

theorem mem_bucketLines (env : Env) (flakeOnly : Bool)
    (signatures : List (String × Interval)) (key line : String)
    (h : line ∈ bucketLines env flakeOnly signatures key) :
    ∃ p ∈ signatures, bucketNamespace env p.2 = key ∧
      line = renderedLine env flakeOnly p.1 p.2 := by
  unfold bucketLines at h
  obtain ⟨p, hp, hl⟩ := List.mem_map.1 h
  obtain ⟨hp1, hp2⟩ := List.mem_filter.1 hp
  exact ⟨p, hp1, by simpa using hp2, hl.symm⟩

/-- C11: every bucket of `nsResults` holds at least one line and only one of its lists is
populated. In flake-only mode the failures list is empty and every line of flakes has
` result=allow ` at the end of its first line; otherwise the flakes list is empty and every
line of failures has ` result=reject ` at the end of its first line. -/
theorem nsResults_bucket_one_list (env : Env) (flakeOnly : Bool) (events : List Interval)
    (q : String × eventResult)
    (hq : q ∈ buildNsResults env flakeOnly (displayToCount env events)) :
    q.2.failures ++ q.2.flakes ≠ [] ∧
    (flakeOnly = true → q.2.failures = [] ∧
      ∀ line ∈ q.2.flakes, ∃ first rest : List Char,
        line.data = first ++ " result=allow ".data ++ rest ∧ '\n' ∉ first ∧
        (rest = [] ∨ ∃ r, rest = '\n' :: r)) ∧
    (flakeOnly = false → q.2.flakes = [] ∧
      ∀ line ∈ q.2.failures, ∃ first rest : List Char,
        line.data = first ++ " result=reject ".data ++ rest ∧ '\n' ∉ first ∧
        (rest = [] ∨ ∃ r, rest = '\n' :: r)) := by
  obtain ⟨hne, hq2⟩ := bucket_of_mem_buildNsResults env flakeOnly _ q hq
  refine ⟨?_, ?_, ?_⟩
  · rw [hq2]
    cases flakeOnly <;> simpa using hne
  · intro hf
    subst hf
    rw [hq2]
    refine ⟨rfl, ?_⟩
    intro line hline
    obtain ⟨p, _, _, hl⟩ := mem_bucketLines env true _ _ line hline
    obtain ⟨first, rest, _, hno, hrest, hdata⟩ :=
      appendToFirstLine_data (renderedMsg env p.1 p.2) " result=allow "
    exact ⟨first, rest, by rw [hl]; exact hdata, hno, hrest⟩
  · intro hf
    subst hf
    rw [hq2]
    refine ⟨rfl, ?_⟩
    intro line hline
    obtain ⟨p, _, _, hl⟩ := mem_bucketLines env false _ _ line hline
    obtain ⟨first, rest, _, hno, hrest, hdata⟩ :=
      appendToFirstLine_data (renderedMsg env p.1 p.2) " result=reject "
    exact ⟨first, rest, by rw [hl]; exact hdata, hno, hrest⟩

set_option maxRecDepth 100000 in
/-- C11 at a concrete list: the bucket `default` of `sampleRepeatedEvents`. -/
theorem nsResults_bucket_one_list_witness :
    (renderedLine sampleEnv true "ns/default pod/web - reason/BackOff repeated"
        (sampleKubeEvent "ns/default pod/web" "default" "BackOff" "27" 3 4) ::
      ([] : List String)) ≠ [] ∧
    ((true : Bool) = true → ([] : List String) = [] ∧
      ∀ line ∈ [renderedLine sampleEnv true "ns/default pod/web - reason/BackOff repeated"
          (sampleKubeEvent "ns/default pod/web" "default" "BackOff" "27" 3 4)],
        ∃ first rest : List Char,
          line.data = first ++ " result=allow ".data ++ rest ∧ '\n' ∉ first ∧
          (rest = [] ∨ ∃ r, rest = '\n' :: r)) :=
  have h := nsResults_bucket_one_list sampleEnv true sampleRepeatedEvents
    ("default", ⟨[], [renderedLine sampleEnv true "ns/default pod/web - reason/BackOff repeated"
      (sampleKubeEvent "ns/default pod/web" "default" "BackOff" "27" 3 4)]⟩)
    (by decide)
  ⟨h.1, h.2.1⟩

/-! ## One line for each signature -/

theorem nodup_mapKeys_recordEvent (env : Env) (d : List (String × Interval)) (e : Interval)
    (h : (mapKeys d).Nodup) : (mapKeys (recordEvent env d e)).Nodup := by
  by_cases hc : env.DuplicateEventThreshold <
      GetTimesAnEventHappened env e.StructuredMessage ∧
      env.MatchesAny e.StructuredLocator e.StructuredMessage = false
  · rw [recordEvent_of env d e hc.1 hc.2]
    cases mapGet? d (eventDisplayMessage e) with
    | none => exact nodup_mapKeys_mapSet _ _ _ h
    | some v =>
      simp only
      split
      · exact nodup_mapKeys_mapSet _ _ _ h
      · exact h
  · rw [recordEvent_of_not env d e hc]
    exact h

theorem nodup_mapKeys_displayToCount (env : Env) (events : List Interval) :
    (mapKeys (displayToCount env events)).Nodup := by
  rw [displayToCount_eq_filter]
  have key : ∀ (l : List Interval) (d : List (String × Interval)),
      (mapKeys d).Nodup → (mapKeys (l.foldl (recordEvent env) d)).Nodup := by
    intro l
    induction l with
    | nil => intro d h; exact h
    | cons a rest ih =>
      intro d h
      exact ih _ (nodup_mapKeys_recordEvent env d a h)
  exact key _ [] List.nodup_nil

theorem mem_mapKeys_displayToCount (env : Env) (events : List Interval) (k : String) :
    k ∈ mapKeys (displayToCount env events) ↔
      k ∈ (events.filter (isReportable env events)).map eventDisplayMessage := by
  have hspec := foldl_recordEvent_spec env (events.filter (isReportable env events))
    (reportable_of_mem_filter env events) k
  rw [← displayToCount_eq_filter] at hspec
  constructor
  · intro hk
    cases hg : mapGet? (displayToCount env events) k with
    | none => exact absurd hk ((mapGet?_eq_none_iff _ _).1 hg)
    | some v =>
      obtain ⟨hv, hrep, hsig⟩ := mem_displayToCount env events (k, v) (mem_of_mapGet? _ _ _ hg)
      exact List.mem_map.2 ⟨v, List.mem_filter.2 ⟨hv, hrep⟩, hsig.symm⟩
  · intro hk
    obtain ⟨e, he, hsig⟩ := List.mem_map.1 hk
    by_contra hno
    exact hspec.1 ((mapGet?_eq_none_iff _ _).2 hno) e he hsig

theorem length_displayToCount (env : Env) (events : List Interval) :
    (displayToCount env events).length =
      (((events.filter (isReportable env events)).map eventDisplayMessage).dedup).length := by
  have hperm : (mapKeys (displayToCount env events)).Perm
      (((events.filter (isReportable env events)).map eventDisplayMessage).dedup) := by
    rw [List.perm_ext_iff_of_nodup (nodup_mapKeys_displayToCount env events)
      (List.nodup_dedup _)]
    intro a
    rw [List.mem_dedup]
    exact mem_mapKeys_displayToCount env events a
  rw [← hperm.length_eq, mapKeys, List.length_map]

theorem perm_flatMap_mapSet (m : List (String × eventResult)) (k : String)
    (new : eventResult) (line : String)
    (h : (new.failures ++ new.flakes).Perm
      (line :: (((mapGet? m k).getD ⟨[], []⟩).failures ++
        ((mapGet? m k).getD ⟨[], []⟩).flakes))) :
    ((mapSet m k new).flatMap (fun q => q.2.failures ++ q.2.flakes)).Perm
      (line :: m.flatMap (fun q => q.2.failures ++ q.2.flakes)) := by
  induction m with
  | nil => simpa [mapSet, mapGet?] using h
  | cons q rest ih =>
    obtain ⟨k0, v0⟩ := q
    by_cases hk : k0 = k
    · subst hk
      simp only [mapGet?, if_true, Option.getD_some] at h
      simp only [mapSet, if_true, List.flatMap_cons]
      exact (h.append_right _).trans (by simp)
    · simp only [mapGet?, hk, if_false] at h
      simp only [mapSet, hk, if_false, List.flatMap_cons]
      exact ((ih h).append_left _).trans List.perm_middle

theorem perm_lines_nsResultsBody (env : Env) (flakeOnly : Bool)
    (acc : List (String × eventResult)) (p : String × Interval) :
    ((nsResultsBody env flakeOnly acc p).flatMap (fun q => q.2.failures ++ q.2.flakes)).Perm
      (renderedLine env flakeOnly p.1 p.2 ::
        acc.flatMap (fun q => q.2.failures ++ q.2.flakes)) := by
  rw [nsResultsBody_eq]
  apply perm_flatMap_mapSet
  cases flakeOnly
  · simp only [Bool.false_eq_true, if_false]
    rw [List.append_assoc]
    exact List.perm_middle
  · simp only [if_true]
    rw [← List.append_assoc]
    exact List.perm_append_singleton _ _

theorem perm_lines_buildNsResults (env : Env) (flakeOnly : Bool)
    (signatures : List (String × Interval)) :
    ((buildNsResults env flakeOnly signatures).flatMap
        (fun q => q.2.failures ++ q.2.flakes)).Perm
      (signatures.map (fun p => renderedLine env flakeOnly p.1 p.2)) := by
  induction signatures using List.reverseRecOn with
  | nil => exact List.Perm.refl _
  | append_singleton d p ih =>
    unfold buildNsResults at ih ⊢
    rw [List.foldl_append, List.foldl_cons, List.foldl_nil, List.map_append]
    refine (perm_lines_nsResultsBody env flakeOnly _ p).trans ?_
    refine (List.Perm.cons _ ih).trans ?_
    exact (List.perm_append_singleton _ _).symm

theorem highest_count_of_mem_displayToCount (env : Env) (events : List Interval)
    (p : String × Interval) (hp : p ∈ displayToCount env events) (e : Interval)
    (he : e ∈ events) (hrep : isReportable env events e = true)
    (hsig : eventDisplayMessage e = p.1) :
    GetTimesAnEventHappened env e.StructuredMessage ≤
      GetTimesAnEventHappened env p.2.StructuredMessage := by
  have hget := mapGet?_of_mem _ p.1 p.2 (nodup_mapKeys_displayToCount env events) hp
  have hspec := foldl_recordEvent_spec env (events.filter (isReportable env events))
    (reportable_of_mem_filter env events) p.1
  rw [← displayToCount_eq_filter] at hspec
  obtain ⟨pre, post, hpp, hpre, hpost⟩ := hspec.2 p.2 hget
  have hmem : e ∈ (events.filter (isReportable env events)).filter
      (fun e => decide (eventDisplayMessage e = p.1)) :=
    List.mem_filter.2 ⟨List.mem_filter.2 ⟨he, hrep⟩, by simpa using hsig⟩
  rw [hpp] at hmem
  rcases List.mem_append.1 hmem with h | h
  · exact le_of_lt (hpre e h)
  · rcases List.mem_cons.1 h with h1 | h1
    · rw [h1]
    · exact hpost e h1

/-- C12: the lines of all the buckets of `nsResults` are, up to their order, the lines of the
pairs of `displayToCount`, one for each pair, so their number is the number of distinct
display signatures of the non-exempt, over-threshold, unallowed events. The line of a pair
reports the repeat count, the `From` and the `To` of its representative, which is an event
of that signature whose count is the highest among these events. -/
theorem one_line_per_signature (env : Env) (flakeOnly : Bool) (events : List Interval) :
    ((buildNsResults env flakeOnly (displayToCount env events)).flatMap
        (fun q => q.2.failures ++ q.2.flakes)).Perm
      ((displayToCount env events).map (fun p => renderedLine env flakeOnly p.1 p.2)) ∧
    ((buildNsResults env flakeOnly (displayToCount env events)).flatMap
        (fun q => q.2.failures ++ q.2.flakes)).length =
      (((events.filter (isReportable env events)).map eventDisplayMessage).dedup).length ∧
    (mapKeys (displayToCount env events)).Nodup ∧
    (∀ p ∈ displayToCount env events,
      renderedLine env flakeOnly p.1 p.2 =
        appendToFirstLine
          ("event happened " ++
            sprintfD (GetTimesAnEventHappened env p.2.StructuredMessage) ++
            " times, something is wrong: " ++
            (p.1 ++ " From: " ++ p.2.From.Format ++ " To: " ++ p.2.To.Format))
          (if flakeOnly = true then " result=allow " else " result=reject ") ∧
      p.2 ∈ events ∧ isReportable env events p.2 = true ∧ eventDisplayMessage p.2 = p.1 ∧
      ∀ e ∈ events, isReportable env events e = true → eventDisplayMessage e = p.1 →
        GetTimesAnEventHappened env e.StructuredMessage ≤
          GetTimesAnEventHappened env p.2.StructuredMessage) := by
  have hperm := perm_lines_buildNsResults env flakeOnly (displayToCount env events)
  refine ⟨hperm, ?_, nodup_mapKeys_displayToCount env events, ?_⟩
  · rw [hperm.length_eq, List.length_map, length_displayToCount]
  · intro p hp
    obtain ⟨hmem, hrep, hsig⟩ := mem_displayToCount env events p hp
    refine ⟨?_, hmem, hrep, hsig.symm, ?_⟩
    · cases flakeOnly <;> rfl
    · intro e he hre hse
      exact highest_count_of_mem_displayToCount env events p hp e he hre hse

/-- C12 at a concrete list: the four events of `sampleRepeatedEvents` have one reportable
signature, and the buckets hold one line. -/
theorem one_line_per_signature_witness :
    ((buildNsResults sampleEnv false (displayToCount sampleEnv sampleRepeatedEvents)).flatMap
        (fun q => q.2.failures ++ q.2.flakes)).length = 1 :=
  ((one_line_per_signature sampleEnv false sampleRepeatedEvents).2.1).trans (by decide)

/-! ## The order in which the signature map is visited -/

theorem perm_bucketLines (env : Env) (flakeOnly : Bool)
    (d₁ d₂ : List (String × Interval)) (h : d₁.Perm d₂) (key : String) :
    (bucketLines env flakeOnly d₁ key).Perm (bucketLines env flakeOnly d₂ key) :=
  (h.filter _).map _

theorem buckets_of_perm (env : Env) (flakeOnly : Bool)
    (d₁ d₂ : List (String × Interval)) (h : d₁.Perm d₂) (key : String) :
    (mapGet? (buildNsResults env flakeOnly d₁) key = none ∧
      mapGet? (buildNsResults env flakeOnly d₂) key = none) ∨
    ∃ b₁ b₂, mapGet? (buildNsResults env flakeOnly d₁) key = some b₁ ∧
      mapGet? (buildNsResults env flakeOnly d₂) key = some b₂ ∧
      b₁.failures.Perm b₂.failures ∧ b₁.flakes.Perm b₂.flakes := by
  have hp := perm_bucketLines env flakeOnly d₁ d₂ h key
  rw [mapGet?_buildNsResults, mapGet?_buildNsResults]
  by_cases h1 : bucketLines env flakeOnly d₁ key = []
  · have h2 : bucketLines env flakeOnly d₂ key = [] := by
      rw [h1] at hp
      exact List.perm_nil.1 hp.symm
    left
    rw [if_pos h1, if_pos h2]
    exact ⟨rfl, rfl⟩
  · have h2 : bucketLines env flakeOnly d₂ key ≠ [] := by
      intro h2
      rw [h2] at hp
      exact h1 (List.perm_nil.1 hp)
    right
    rw [if_neg h1, if_neg h2]
    refine ⟨_, _, rfl, rfl, ?_⟩
    cases flakeOnly
    · exact ⟨hp, List.Perm.refl _⟩
    · exact ⟨List.Perm.refl _, hp⟩

theorem verdictStatus_coreNamespaceVerdicts (testName : String)
    (r₁ r₂ : List (String × eventResult))
    (hb : ∀ key, (mapGet? r₁ key = none ∧ mapGet? r₂ key = none) ∨
      ∃ b₁ b₂, mapGet? r₁ key = some b₁ ∧ mapGet? r₂ key = some b₂ ∧
        b₁.failures.Perm b₂.failures ∧ b₁.flakes.Perm b₂.flakes)
    (namespace_ : String) :
    (coreNamespaceVerdicts testName r₁ namespace_).map verdictStatus =
      (coreNamespaceVerdicts testName r₂ namespace_).map verdictStatus := by
  unfold coreNamespaceVerdicts
  rcases hb namespace_ with ⟨h1, h2⟩ | ⟨b₁, b₂, h1, h2, hf, hk⟩
  · rw [h1, h2]
  · rw [h1, h2]
    simp only [hf.length_eq, hk.length_eq]
    split <;> simp [verdictStatus]

theorem verdictStatus_e2e (testName : String) (r₁ r₂ : List (String × eventResult))
    (hb : ∀ key, (mapGet? r₁ key = none ∧ mapGet? r₂ key = none) ∨
      ∃ b₁ b₂, mapGet? r₁ key = some b₁ ∧ mapGet? r₂ key = some b₂ ∧
        b₁.failures.Perm b₂.failures ∧ b₁.flakes.Perm b₂.flakes) :
    (generateJUnitTestCasesE2ENamespaces testName r₁).map verdictStatus =
      (generateJUnitTestCasesE2ENamespaces testName r₂).map verdictStatus := by
  rcases hb "" with ⟨h1, h2⟩ | ⟨b₁, b₂, h1, h2, hf, hk⟩
  · rw [generateJUnitTestCasesE2ENamespaces_of_none _ _ h1,
      generateJUnitTestCasesE2ENamespaces_of_none _ _ h2]
  · rw [generateJUnitTestCasesE2ENamespaces_of_some _ _ _ h1,
      generateJUnitTestCasesE2ENamespaces_of_some _ _ _ h2]
    have e1 : b₁.failures ≠ [] ↔ b₂.failures ≠ [] := by
      rw [← List.length_pos, ← List.length_pos, hf.length_eq]
    have e2 : b₁.flakes ≠ [] ↔ b₂.flakes ≠ [] := by
      rw [← List.length_pos, ← List.length_pos, hk.length_eq]
    by_cases c1 : b₁.failures ≠ []
    · rw [if_pos c1, if_pos (e1.1 c1)]
      simp [verdictStatus]
    · rw [if_neg c1, if_neg (fun h => c1 (e1.2 h))]
      by_cases c2 : b₁.flakes ≠ []
      · rw [if_pos c2, if_pos (e2.1 c2)]
        simp [verdictStatus]
      · rw [if_neg c2, if_neg (fun h => c2 (e2.2 h))]

/-- C19: when the signature map is visited in two orders, every namespace key has a bucket
in both results or in neither, with the same failures and the same flakes up to the order
of the lines, and the verdicts have the same names and the same pass or fail status, in the
same order. -/
theorem verdicts_independent_of_visit_order (env : Env) (testName : String)
    (flakeOnly isE2E : Bool) (d₁ d₂ : List (String × Interval)) (h : d₁.Perm d₂) :
    (∀ key : String,
      (mapGet? (buildNsResults env flakeOnly d₁) key = none ∧
        mapGet? (buildNsResults env flakeOnly d₂) key = none) ∨
      ∃ b₁ b₂, mapGet? (buildNsResults env flakeOnly d₁) key = some b₁ ∧
        mapGet? (buildNsResults env flakeOnly d₂) key = some b₂ ∧
        b₁.failures.Perm b₂.failures ∧ b₁.flakes.Perm b₂.flakes) ∧
    (verdictsOf env testName isE2E (buildNsResults env flakeOnly d₁)).map verdictStatus =
      (verdictsOf env testName isE2E (buildNsResults env flakeOnly d₂)).map verdictStatus := by
  have hb := buckets_of_perm env flakeOnly d₁ d₂ h
  refine ⟨hb, ?_⟩
  unfold verdictsOf
  cases isE2E
  · simp only [Bool.false_eq_true, if_false, generateJUnitTestCasesCoreNamespaces_eq,
      List.map_flatMap]
    congr 1
    funext ns
    exact verdictStatus_coreNamespaceVerdicts testName _ _ hb ns
  · simp only [if_true]
    exact verdictStatus_e2e testName _ _ hb

/-! ## The rendered line -/

theorem Time.Format_shape (t : Time) :
    ∃ h m s : Nat, h < 24 ∧ m < 60 ∧ s < 60 ∧
      t.Format = Time.twoDigits h ++ ":" ++ Time.twoDigits m ++ ":" ++ Time.twoDigits s ++
        "Z" := by
  have hlt : ((t.nsec / 1000000000 + t.offset) % 86400).toNat < 86400 := by
    have h1 : (t.nsec / 1000000000 + t.offset) % 86400 < 86400 :=
      Int.emod_lt_of_pos _ (by norm_num)
    have h0 : 0 ≤ (t.nsec / 1000000000 + t.offset) % 86400 :=
      Int.emod_nonneg _ (by norm_num)
    omega
  refine ⟨((t.nsec / 1000000000 + t.offset) % 86400).toNat / 3600,
    ((t.nsec / 1000000000 + t.offset) % 86400).toNat / 60 % 60,
    ((t.nsec / 1000000000 + t.offset) % 86400).toNat % 60, ?_, ?_, ?_, rfl⟩
  · omega
  · omega
  · omega

set_option maxRecDepth 100000 in
/-- C13, refuted as stated: the human message of `sampleMultiLineEvent` has a line break, and
the rendered line has the marker before that line break, not at its end. -/
theorem renderedLine_marker_not_at_end :
    renderedLine sampleEnv false (eventDisplayMessage sampleMultiLineEvent)
        sampleMultiLineEvent =
      "event happened 21 times, something is wrong: ns/a pod/p - reason/BackOff one" ++
        " result=reject " ++ "\ntwo From: 00:00:01Z To: 00:00:02Z" ∧
    renderedLine sampleEnv false (eventDisplayMessage sampleMultiLineEvent)
        sampleMultiLineEvent ≠
      "event happened 21 times, something is wrong: ns/a pod/p - reason/BackOff one\ntwo" ++
        " From: 00:00:01Z To: 00:00:02Z" ++ " result=reject " := by
  decide

/-- C13, amended: the rendered line is the text
`event happened N times, something is wrong: locator - reason/reason humanMessage
From: HH:MM:SSZ To: HH:MM:SSZ` with the marker of the mode appended to the end of its first
line. When the text has no line break the line is the text followed by the marker; in
general the marker stands between the first line of the text and the rest of it. The two
times are printed as two-digit hours, minutes and seconds followed by `Z`. -/
theorem renderedLine_spec (env : Env) (flakeOnly : Bool) (v : Interval) :
    ('\n' ∉ ("event happened " ++ sprintfD (GetTimesAnEventHappened env v.StructuredMessage) ++
        " times, something is wrong: " ++
        (v.Locator ++ " - reason/" ++ v.StructuredMessage.Reason ++ " " ++
          v.StructuredMessage.HumanMessage ++ " From: " ++ v.From.Format ++ " To: " ++
          v.To.Format)).data →
      renderedLine env flakeOnly (eventDisplayMessage v) v =
        "event happened " ++ sprintfD (GetTimesAnEventHappened env v.StructuredMessage) ++
          " times, something is wrong: " ++
          (v.Locator ++ " - reason/" ++ v.StructuredMessage.Reason ++ " " ++
            v.StructuredMessage.HumanMessage ++ " From: " ++ v.From.Format ++ " To: " ++
            v.To.Format) ++
          (if flakeOnly = true then " result=allow " else " result=reject ")) ∧
    (∃ first rest : List Char,
      ("event happened " ++ sprintfD (GetTimesAnEventHappened env v.StructuredMessage) ++
        " times, something is wrong: " ++
        (v.Locator ++ " - reason/" ++ v.StructuredMessage.Reason ++ " " ++
          v.StructuredMessage.HumanMessage ++ " From: " ++ v.From.Format ++ " To: " ++
          v.To.Format)).data = first ++ rest ∧
      '\n' ∉ first ∧ (rest = [] ∨ ∃ r, rest = '\n' :: r) ∧
      (renderedLine env flakeOnly (eventDisplayMessage v) v).data =
        first ++ (if flakeOnly = true then " result=allow " else " result=reject ").data ++
          rest) ∧
    (∀ t : Time, ∃ h m s : Nat, h < 24 ∧ m < 60 ∧ s < 60 ∧
      t.Format = Time.twoDigits h ++ ":" ++ Time.twoDigits m ++ ":" ++ Time.twoDigits s ++
        "Z") := by
  have hr : renderedLine env flakeOnly (eventDisplayMessage v) v =
      appendToFirstLine
        ("event happened " ++ sprintfD (GetTimesAnEventHappened env v.StructuredMessage) ++
          " times, something is wrong: " ++
          (v.Locator ++ " - reason/" ++ v.StructuredMessage.Reason ++ " " ++
            v.StructuredMessage.HumanMessage ++ " From: " ++ v.From.Format ++ " To: " ++
            v.To.Format))
        (if flakeOnly = true then " result=allow " else " result=reject ") := by
    cases flakeOnly <;> rfl
  refine ⟨?_, ?_, Time.Format_shape⟩
  · intro hno
    rw [hr, appendToFirstLine_of_no_newline _ _ hno]
  · rw [hr]
    exact appendToFirstLine_data _ _

/-- C13, amended, at a concrete event: the text of a `sampleKubeEvent` has no line break, so
its line ends with the marker. -/
theorem renderedLine_spec_witness :
    renderedLine sampleEnv true
        (eventDisplayMessage (sampleKubeEvent "ns/a pod/p" "a" "BackOff" "21" 1 2))
        (sampleKubeEvent "ns/a pod/p" "a" "BackOff" "21" 1 2) =
      "event happened " ++
        sprintfD (GetTimesAnEventHappened sampleEnv
          (sampleKubeEvent "ns/a pod/p" "a" "BackOff" "21" 1 2).StructuredMessage) ++
        " times, something is wrong: " ++
        ((sampleKubeEvent "ns/a pod/p" "a" "BackOff" "21" 1 2).Locator ++ " - reason/" ++
          (sampleKubeEvent "ns/a pod/p" "a" "BackOff" "21" 1 2).StructuredMessage.Reason ++
          " " ++
          (sampleKubeEvent "ns/a pod/p" "a" "BackOff" "21" 1 2).StructuredMessage.HumanMessage ++
          " From: " ++ (sampleKubeEvent "ns/a pod/p" "a" "BackOff" "21" 1 2).From.Format ++
          " To: " ++ (sampleKubeEvent "ns/a pod/p" "a" "BackOff" "21" 1 2).To.Format) ++
        (if (true : Bool) = true then " result=allow " else " result=reject ") :=
  (renderedLine_spec sampleEnv true (sampleKubeEvent "ns/a pod/p" "a" "BackOff" "21" 1 2)).1
    (by decide)

/-! ## The allowance of etcd guard probe failures -/

theorem allowEtcdGuardReadinessProbeFailure_iff (a : etcdRevisionChangeAllowance)
    (monitorEvent : Interval) (times : Int) :
    (allowEtcdGuardReadinessProbeFailure a monitorEvent times).2 = none ∧
    ((allowEtcdGuardReadinessProbeFailure a monitorEvent times).1 = true ↔
      a.allowedGuardProbeFailurePattern (monitorEvent.Locator ++ " - " ++ monitorEvent.Message)
        = true ∧
      times < mulInt64 a.maxAllowedGuardProbeFailurePerRevision a.currentRevision) := by
  unfold allowEtcdGuardReadinessProbeFailure
  simp only [gt_iff_lt]
  split
  · rename_i h
    exact ⟨rfl, fun _ => h, fun _ => rfl⟩
  · rename_i h
    exact ⟨rfl, fun hh => Bool.noConfusion hh, fun hh => absurd hh h⟩

/-- C18, the code at the failing input: the event matches the pattern and the budget is
12 × 5 = 60; a count of 60, which is not more than the budget, is not allowed, while a count
of 50 and a count of 59 are. -/
theorem allowEtcdGuardReadinessProbeFailure_at_budget :
    sampleEtcdAllowance.allowedGuardProbeFailurePattern
      (sampleGuardEvent.Locator ++ " - " ++ sampleGuardEvent.Message) = true ∧
    mulInt64 sampleEtcdAllowance.maxAllowedGuardProbeFailurePerRevision
      sampleEtcdAllowance.currentRevision = 60 ∧
    allowEtcdGuardReadinessProbeFailure sampleEtcdAllowance sampleGuardEvent 60 =
      (false, none) ∧
    allowEtcdGuardReadinessProbeFailure sampleEtcdAllowance sampleGuardEvent 59 =
      (true, none) ∧
    allowEtcdGuardReadinessProbeFailure sampleEtcdAllowance sampleGuardEvent 50 =
      (true, none) := by
  decide

/-- C19 at a concrete map: two representatives of the namespace `default`, visited in both
orders. -/
theorem verdicts_independent_of_visit_order_witness :
    (verdictsOf sampleEnv "T" false (buildNsResults sampleEnv false
        [("b", sampleKubeEvent "ns/default pod/b" "default" "BackOff" "30" 3 4),
         ("a", sampleKubeEvent "ns/default pod/a" "default" "BackOff" "27" 3 4)])).map
        verdictStatus =
      (verdictsOf sampleEnv "T" false (buildNsResults sampleEnv false
        [("a", sampleKubeEvent "ns/default pod/a" "default" "BackOff" "27" 3 4),
         ("b", sampleKubeEvent "ns/default pod/b" "default" "BackOff" "30" 3 4)])).map
        verdictStatus :=
  (verdicts_independent_of_visit_order sampleEnv "T" false false _ _
    (List.Perm.swap _ _ _)).2

/-! ## Printing and reading back a count -/

theorem digitChar_spec : ∀ k : Nat, k < 10 →
    (Nat.digitChar k).isDigit = true ∧ (Nat.digitChar k).toNat - '0'.toNat = k := by
  decide

theorem decimalValue_append_singleton (acc : Nat) (ds : List Char) (c : Char) :
    decimalValue acc (ds ++ [c]) = 10 * decimalValue acc ds + (c.toNat - '0'.toNat) := by
  simp [decimalValue, List.foldl_append]

theorem toDigitsCore_spec (fuel : Nat) :
    ∀ (n : Nat) (ds : List Char), n < fuel →
      ∃ pre : List Char, Nat.toDigitsCore 10 fuel n ds = pre ++ ds ∧ pre ≠ [] ∧
        (∀ c ∈ pre, c.isDigit = true) ∧ decimalValue 0 pre = n := by
  induction fuel with
  | zero => intro n ds h; exact absurd h (Nat.not_lt_zero n)
  | succ fuel ih =>
    intro n ds hn
    have hd := digitChar_spec (n % 10) (Nat.mod_lt n (by norm_num))
    by_cases h0 : n / 10 = 0
    · refine ⟨[Nat.digitChar (n % 10)], ?_, List.cons_ne_nil _ _, ?_, ?_⟩
      · simp [Nat.toDigitsCore, h0]
      · intro c hc
        rw [List.mem_singleton.1 hc]
        exact hd.1
      · have : decimalValue 0 [Nat.digitChar (n % 10)] =
            (Nat.digitChar (n % 10)).toNat - '0'.toNat := by
          simp [decimalValue]
        rw [this, hd.2]
        omega
    · have hlt : n / 10 < fuel := by omega
      obtain ⟨pre, hpre, _, hdig, hval⟩ := ih (n / 10) (Nat.digitChar (n % 10) :: ds) hlt
      refine ⟨pre ++ [Nat.digitChar (n % 10)], ?_, ?_, ?_, ?_⟩
      · simp only [Nat.toDigitsCore, h0, if_false, hpre]
        simp
      · simp
      · intro c hc
        rcases List.mem_append.1 hc with h | h
        · exact hdig c h
        · rw [List.mem_singleton.1 h]
          exact hd.1
      · rw [decimalValue_append_singleton, hval, hd.2]
        omega

theorem repr_spec (n : Nat) :
    (Nat.repr n).data ≠ [] ∧ (∀ c ∈ (Nat.repr n).data, c.isDigit = true) ∧
      decimalValue 0 (Nat.repr n).data = n := by
  obtain ⟨pre, hpre, hne, hdig, hval⟩ := toDigitsCore_spec (n + 1) n [] (Nat.lt_succ_self n)
  have hdata : (Nat.repr n).data = pre := by
    simp only [Nat.repr, Nat.toDigits, List.asString, hpre, List.append_nil]
  rw [hdata]
  exact ⟨hne, hdig, hval⟩

theorem isDecimalText_sprintfD (n : Int) : IsDecimalText (sprintfD n) n := by
  cases n with
  | ofNat m =>
    obtain ⟨hne, hdig, hval⟩ := repr_spec m
    exact ⟨(Nat.repr m).data, hne, hdig, Or.inl ⟨rfl, by rw [hval]; rfl⟩⟩
  | negSucc m =>
    obtain ⟨hne, hdig, hval⟩ := repr_spec (m + 1)
    refine ⟨(Nat.repr (m + 1)).data, hne, hdig, Or.inr (Or.inr ⟨?_, ?_⟩)⟩
    · simp only [sprintfD, String.data_append]
      rfl
    · rw [hval, Int.negSucc_eq]
      push_cast
      ring

theorem GetTimesAnEventHappened_sprintfD (env : Env) (reason humanMessage : String)
    (count : Int) (hfit : FitsInt count) :
    GetTimesAnEventHappened env
      ⟨reason, humanMessage, mapSet [] env.AnnotationCount (sprintfD count)⟩ = count := by
  rw [GetTimesAnEventHappened_of_some env _ (sprintfD count) (mapGet?_mapSet_self _ _ _),
    ParseInt_of_decimalText _ count (isDecimalText_sprintfD count) hfit]
  simp

/-! ## The test utility -/

theorem BuildTestDupeKubeEvent_spec (env : Env) (SourceKubeEvent : String)
    (legacyLocator : Locator → String) (legacyMessage : Message → String) (now : Time)
    (namespace_ pod reason msg : String) (count : Int) :
    (BuildTestDupeKubeEvent env SourceKubeEvent legacyLocator legacyMessage now namespace_ pod
        reason msg count).StructuredLocator.LocatorType = env.LocatorTypePod ∧
    (namespace_ ≠ "" →
      mapGet? (BuildTestDupeKubeEvent env SourceKubeEvent legacyLocator legacyMessage now
        namespace_ pod reason msg count).StructuredLocator.Keys env.LocatorNamespaceKey =
        some namespace_) ∧
    (pod ≠ "" →
      mapGet? (BuildTestDupeKubeEvent env SourceKubeEvent legacyLocator legacyMessage now
        namespace_ pod reason msg count).StructuredLocator.Keys env.LocatorPodKey =
        some namespace_) ∧
    (BuildTestDupeKubeEvent env SourceKubeEvent legacyLocator legacyMessage now namespace_ pod
        reason msg count).StructuredMessage.Reason = reason ∧
    (BuildTestDupeKubeEvent env SourceKubeEvent legacyLocator legacyMessage now namespace_ pod
        reason msg count).StructuredMessage.HumanMessage = msg ∧
    (FitsInt count →
      GetTimesAnEventHappened env
        (BuildTestDupeKubeEvent env SourceKubeEvent legacyLocator legacyMessage now namespace_
          pod reason msg count).StructuredMessage = count) := by
  refine ⟨rfl, ?_, ?_, rfl, rfl, ?_⟩
  · intro hns
    simp only [BuildTestDupeKubeEvent, buildIntervalNow, hns, ne_eq, not_false_eq_true,
      if_true]
    by_cases hp : pod = ""
    · simp only [hp, not_true_eq_false, if_false]
      exact mapGet?_mapSet_self _ _ _
    · simp only [hp, not_false_eq_true, if_true]
      by_cases hk : env.LocatorPodKey = env.LocatorNamespaceKey
      · rw [hk]
        exact mapGet?_mapSet_self _ _ _
      · rw [mapGet?_mapSet_ne _ _ _ _ hk]
        exact mapGet?_mapSet_self _ _ _
  · intro hp
    simp only [BuildTestDupeKubeEvent, buildIntervalNow, hp, ne_eq, not_false_eq_true,
      if_true]
    exact mapGet?_mapSet_self _ _ _
  · intro hfit
    exact GetTimesAnEventHappened_sprintfD env reason msg count hfit

/-- C21, the code at the failing input: for the namespace `e2e-ns` and the pod `pod-1` the
built interval has a pod-type locator, the namespace key `e2e-ns`, the given reason and
human message and a count annotation that reads back as 21, but its pod key holds the
namespace `e2e-ns` and not the pod `pod-1`. -/
theorem BuildTestDupeKubeEvent_pod_key_holds_namespace :
    (BuildTestDupeKubeEvent sampleEnv "KubeEvent" (fun _ => "") (fun _ => "") Time.zero
        "e2e-ns" "pod-1" "BackOff" "restarting" 21).StructuredLocator =
      ⟨"Pod", [("namespace", "e2e-ns"), ("pod", "e2e-ns")]⟩ ∧
    mapGet? (BuildTestDupeKubeEvent sampleEnv "KubeEvent" (fun _ => "") (fun _ => "") Time.zero
        "e2e-ns" "pod-1" "BackOff" "restarting" 21).StructuredLocator.Keys
        sampleEnv.LocatorPodKey = some "e2e-ns" ∧
    mapGet? (BuildTestDupeKubeEvent sampleEnv "KubeEvent" (fun _ => "") (fun _ => "") Time.zero
        "e2e-ns" "pod-1" "BackOff" "restarting" 21).StructuredLocator.Keys
        sampleEnv.LocatorPodKey ≠ some "pod-1" ∧
    (BuildTestDupeKubeEvent sampleEnv "KubeEvent" (fun _ => "") (fun _ => "") Time.zero
        "e2e-ns" "pod-1" "BackOff" "restarting" 21).StructuredMessage =
      ⟨"BackOff", "restarting", [("count", "21")]⟩ ∧
    GetTimesAnEventHappened sampleEnv
      (BuildTestDupeKubeEvent sampleEnv "KubeEvent" (fun _ => "") (fun _ => "") Time.zero
        "e2e-ns" "pod-1" "BackOff" "restarting" 21).StructuredMessage = 21 := by
  decide

end pathologicaleventlibrary
